import Mathlib

/-!
# Verification of the Docuverse structural-model engine

Shallow embedding of the core of the repository:
* `backend/app/api/endpoints/files.py` — risk scoring (`_calculate_risk_score`,
  `_risk_level`);
* `backend/app/services/parser.py` — AST extraction (`_extract_nodes`,
  `parse_file`, `_parse_fallback`, `_initialize_parsers`);
* `backend/app/services/dependency_analyzer.py` — dependency graph
  construction (`analyze_repository`, `_extract_imports`, `_resolve_import`)
  and graph analytics (`get_file_dependencies`, `get_file_dependents`,
  `get_dependency_chain`, `get_impact_analysis`,
  `find_circular_dependencies`, `get_most_imported_files`,
  `get_graph_stats`).

Python machine integers are unbounded, so `Int`/`Nat` model them exactly.
Python exceptions are modelled with `Except`/`Option`.  Python regular
expressions are modelled by a small backtracking engine (`reRun`) over a
regex AST, with the exact greedy/lazy semantics of the `re` module;
each pattern of the source is transcribed into that AST.
-/

namespace Docuverse

/-! ## Risk scoring (`files.py`, `_calculate_risk_score` / `_risk_level`) -/

/-- Embedding of `_calculate_risk_score` from
`backend/app/api/endpoints/files.py`:

```
score = 0
score += min(total_affected * 8, 60)
score += min(direct_dependents_count * 10, 25)
if has_cycles: score += 15
if symbol_selected: score = max(0, score - 10)
return max(0, min(score, 100))
``` -/
def calculate_risk_score (totalAffected directDependentsCount : Int)
    (hasCycles symbolSelected : Bool) : Int :=
  let score : Int := 0
  let score := score + min (totalAffected * 8) 60
  let score := score + min (directDependentsCount * 10) 25
  let score := score + (if hasCycles then 15 else 0)
  let score := if symbolSelected then max 0 (score - 10) else score
  max 0 (min score 100)

/-- Embedding of `_risk_level` from `backend/app/api/endpoints/files.py`. -/
def risk_level (score : Int) : String :=
  if score ≥ 70 then "high"
  else if score ≥ 35 then "medium"
  else "low"

/-- The risk formula as the specification words it (for the refinement claim
C3): `base = min(total_affected*8, 60) + min(direct_dependents*10, 25)
+ (15 if has_cycle else 0) − (10 if symbol_scoped else 0)`, clamped to
`[0,100]`. -/
def riskScoreSpec (totalAffected directDependents : Int)
    (hasCycle symbolScoped : Bool) : Int :=
  max 0 (min (min (totalAffected * 8) 60 + min (directDependents * 10) 25
      + (if hasCycle then 15 else 0) - (if symbolScoped then 10 else 0)) 100)

/-! ## A backtracking regex engine

Models the fragment of Python's `re` module used by the repository:
character classes, concatenation, alternation (leftmost preference),
greedy `*`/`+`/`?` and lazy `*?`/`+?`, and numbered capture groups.
The engine is written in continuation-passing style; `fuel` bounds the
call depth (every recursive call strictly decreases it) and is chosen
generously by the callers, so for the inputs appearing in this file the
engine never runs out. -/

/-- Regex AST.  `cls p` matches one character satisfying `p`. -/
inductive RE where
  | eps : RE
  | cls : (Char → Bool) → RE
  | seq : RE → RE → RE
  | alt : RE → RE → RE
  | optG : RE → RE
  | starG : RE → RE
  | starL : RE → RE
  | group : Nat → RE → RE

/-- Capture map: group index to (start, stop) positions. -/
abbrev Caps := List (Nat × Nat × Nat)

/-- Record a capture, overwriting an earlier capture of the same group. -/
def capSet (caps : Caps) (i a b : Nat) : Caps :=
  (i, a, b) :: caps.filter (fun c => c.1 ≠ i)

/-- Backtracking matcher.  `k` is the continuation receiving the position
after the current sub-pattern and the captures so far; alternatives are
tried in Python's order (greedy repetitions longest-first, lazy
repetitions shortest-first, alternation left-first). -/
def reRun (s : List Char) : Nat → RE → Nat → Caps →
    (Nat → Caps → Option (Nat × Caps)) → Option (Nat × Caps)
  | 0, _, _, _, _ => none
  | _ + 1, RE.eps, pos, caps, k => k pos caps
  | _ + 1, RE.cls p, pos, caps, k =>
    match s.get? pos with
    | some c => if p c then k (pos + 1) caps else none
    | none => none
  | fuel + 1, RE.seq a b, pos, caps, k =>
    reRun s fuel a pos caps (fun p2 c2 => reRun s fuel b p2 c2 k)
  | fuel + 1, RE.alt a b, pos, caps, k =>
    (reRun s fuel a pos caps k) <|> (reRun s fuel b pos caps k)
  | fuel + 1, RE.optG a, pos, caps, k =>
    (reRun s fuel a pos caps k) <|> k pos caps
  | fuel + 1, RE.starG a, pos, caps, k =>
    (reRun s fuel a pos caps (fun p2 c2 =>
      if pos < p2 then reRun s fuel (RE.starG a) p2 c2 k else none)) <|> k pos caps
  | fuel + 1, RE.starL a, pos, caps, k =>
    (k pos caps) <|> (reRun s fuel a pos caps (fun p2 c2 =>
      if pos < p2 then reRun s fuel (RE.starL a) p2 c2 k else none))
  | fuel + 1, RE.group i a, pos, caps, k =>
    reRun s fuel a pos caps (fun p2 c2 => k p2 (capSet c2 i pos p2))

/-- Greedy `+`: one occurrence followed by a greedy star. -/
def rePlusG (a : RE) : RE := RE.seq a (RE.starG a)

/-- Lazy `+?`: one occurrence followed by a lazy star. -/
def rePlusL (a : RE) : RE := RE.seq a (RE.starL a)

/-- Literal string. -/
def reStr (t : String) : RE :=
  t.data.foldr (fun c acc => RE.seq (RE.cls (fun x => x == c)) acc) RE.eps

/-- Depth bound for `reRun`; linear in the input, generous constants. -/
def engineFuel (s : List Char) : Nat := 16 * s.length + 400

/-- Substring of `s` from position `a` (inclusive) to `b` (exclusive). -/
def subStr (s : List Char) (a b : Nat) : String :=
  String.mk ((s.drop a).take (b - a))

/-- `re.match(pattern, s)`: anchored at position 0; on success returns the
end position and the captures. -/
def reMatch (re : RE) (s : String) : Option (Nat × Caps) :=
  reRun s.data (engineFuel s.data) re 0 [] (fun p c => some (p, c))

/-- Text of capture group `i` of a match over `s`. -/
def capStr (s : String) (caps : Caps) (i : Nat) : Option String :=
  (caps.find? (fun c => c.1 == i)).map (fun c => subStr s.data c.2.1 c.2.2)

/-- `re.search`: try an anchored match at `i`, `i+1`, ... and return
`(start, stop, captures)` of the leftmost match. -/
def reSearchAux (re : RE) (s : String) : Nat → Nat → Option (Nat × Nat × Caps)
  | _, 0 => none
  | i, fuel + 1 =>
    match reRun s.data (engineFuel s.data) re i [] (fun p c => some (p, c)) with
    | some (e, c) => some (i, e, c)
    | none => if s.data.length ≤ i then none else reSearchAux re s (i + 1) fuel

/-- `re.search(pattern, s)`. -/
def reSearch (re : RE) (s : String) : Option (Nat × Nat × Caps) :=
  reSearchAux re s 0 (s.data.length + 1)

/-- `re.finditer`, collecting group `g` of every non-overlapping match. -/
def reFindIterAux (re : RE) (s : String) (g : Nat) : Nat → Nat → List String
  | _, 0 => []
  | i, fuel + 1 =>
    match reSearchAux re s i (s.data.length + 1 - i) with
    | none => []
    | some (_, e, caps) =>
      let rest := reFindIterAux re s g (if e ≤ i then i + 1 else e) fuel
      match capStr s caps g with
      | some t => t :: rest
      | none => rest

/-- All group-`g` captures of the non-overlapping matches of `re` in `s`. -/
def reFindIter (re : RE) (s : String) (g : Nat) : List String :=
  reFindIterAux re s g 0 (s.data.length + 1)

/-! ## Character classes and the concrete patterns of the source -/

/-! ### String primitives

The few `str` operations the source uses are implemented over the
character list so that every definition evaluates by kernel reduction
(`rfl`/`decide`); each matches CPython's behaviour for the way the
source calls it. -/

/-- `s.split(sep)` for a one-character separator (the only separators
appearing in the source: newline, slash, comma). -/
def splitOnChar (c : Char) : List Char → List String
  | [] => [""]
  | x :: xs =>
    let r := splitOnChar c xs
    if x = c then "" :: r
    else
      match r with
      | [] => [String.mk [x]]
      | h :: t => String.mk (x :: h.data) :: t

/-- `s.split(c)` on a string. -/
def pySplit (s : String) (c : Char) : List String := splitOnChar c s.data

/-- `s.replace(a, b)` for one-character arguments. -/
def strReplaceChar (s : String) (a b : Char) : String :=
  String.mk (s.data.map (fun x => if x = a then b else x))

/-- `s.startswith(pre)`. -/
def strStartsWith (s pre : String) : Bool := pre.data.isPrefixOf s.data

/-- `s.endswith(suf)`. -/
def strEndsWith (s suf : String) : Bool := suf.data.isSuffixOf s.data

/-- `s.lower()` (ASCII; extensions are ASCII). -/
def strToLower (s : String) : String := String.mk (s.data.map Char.toLower)

/-- Python `\s` (ASCII range; the sources only contain ASCII whitespace). -/
def pyWs (c : Char) : Bool :=
  c == ' ' || c == '\t' || c == '\n' || c == '\x0d' || c == '\x0b' || c == '\x0c'

/-- Python `\S`. -/
def pyNonWs (c : Char) : Bool := !pyWs c

/-- Python `\w` (ASCII range). -/
def pyWord (c : Char) : Bool := c.isAlphanum || c == '_'

/-- The class `[\w.]`. -/
def pyWordDot (c : Char) : Bool := pyWord c || c == '.'

/-- Python `.` (anything but a newline). -/
def pyDot (c : Char) : Bool := c != '\n'

/-- The class `['\"]`. -/
def pyQuote (c : Char) : Bool := c == '\'' || c == '"'

/-- `str.strip()`: drop whitespace from both ends. -/
def pyStrip (s : String) : String :=
  String.mk (((s.data.dropWhile pyWs).reverse.dropWhile pyWs).reverse)

/-- `len(line) - len(line.lstrip())`: size of the leading whitespace. -/
def lineIndent (s : String) : Nat :=
  s.data.length - (s.data.dropWhile pyWs).length

/-- `dependency_analyzer.py` pattern `^import\s+([\w.]+)`. -/
def daImportRE : RE :=
  RE.seq (reStr "import") (RE.seq (rePlusG (RE.cls pyWs))
    (RE.group 1 (rePlusG (RE.cls pyWordDot))))

/-- `dependency_analyzer.py` pattern `^from\s+([\w.]+)\s+import`. -/
def daFromRE : RE :=
  RE.seq (reStr "from") (RE.seq (rePlusG (RE.cls pyWs))
    (RE.seq (RE.group 1 (rePlusG (RE.cls pyWordDot)))
      (RE.seq (rePlusG (RE.cls pyWs)) (reStr "import"))))

/-- `dependency_analyzer.py` pattern
`import\s+.*?\s+from\s+['\"](.+?)['\"]` (ES imports). -/
def daEsImportRE : RE :=
  RE.seq (reStr "import") (RE.seq (rePlusG (RE.cls pyWs))
    (RE.seq (RE.starL (RE.cls pyDot)) (RE.seq (rePlusG (RE.cls pyWs))
      (RE.seq (reStr "from") (RE.seq (rePlusG (RE.cls pyWs))
        (RE.seq (RE.cls pyQuote) (RE.seq (RE.group 1 (rePlusL (RE.cls pyDot)))
          (RE.cls pyQuote))))))))

/-- `dependency_analyzer.py` pattern
`require\s*\(\s*['\"](.+?)['\"]\s*\)`. -/
def daRequireRE : RE :=
  RE.seq (reStr "require") (RE.seq (RE.starG (RE.cls pyWs))
    (RE.seq (reStr "(") (RE.seq (RE.starG (RE.cls pyWs))
      (RE.seq (RE.cls pyQuote) (RE.seq (RE.group 1 (rePlusL (RE.cls pyDot)))
        (RE.seq (RE.cls pyQuote) (RE.seq (RE.starG (RE.cls pyWs))
          (reStr ")"))))))))

/-! ## Import extraction (`DependencyAnalyzer._extract_imports`) -/

/-- One line of the Python branch of `_extract_imports`: strip the line,
try `^import\s+([\w.]+)` then `^from\s+([\w.]+)\s+import`. -/
def extractPyLine (line : String) : Option String :=
  let line := pyStrip line
  match reMatch daImportRE line with
  | some (_, caps) => capStr line caps 1
  | none =>
    match reMatch daFromRE line with
    | some (_, caps) => capStr line caps 1
    | none => none

/-- Embedding of `DependencyAnalyzer._extract_imports`.  For Python the
content is scanned line by line with the two anchored patterns; for
JavaScript/TypeScript all ES-import specifiers are collected, then all
`require(...)` specifiers. -/
def extract_imports (content : String) (language : String) : List String :=
  if language = "python" then
    (pySplit content '\n').foldl (fun acc line =>
      match extractPyLine line with
      | some g => acc ++ [g]
      | none => acc) []
  else if language = "javascript" ∨ language = "typescript" then
    reFindIter daEsImportRE content 1 ++ reFindIter daRequireRE content 1
  else []

/-! ## POSIX path helpers (`os.path` with `os.sep = "/"`) -/

/-- `os.path.dirname` (POSIX): the prefix up to the last `/`, with
trailing slashes stripped unless the prefix is all slashes. -/
def posixDirname (p : String) : String :=
  let cs := p.data
  let rev := cs.reverse
  match rev.findIdx? (fun c => c == '/') with
  | none => ""
  | some k =>
    let head := cs.take (cs.length - k)
    if head.all (fun c => c == '/') then String.mk head
    else String.mk (head.reverse.dropWhile (fun c => c == '/')).reverse

/-- `os.path.join a b` (POSIX) for the two-argument uses in the source. -/
def posixJoin (a b : String) : String :=
  if strStartsWith b "/" then b
  else if a = "" ∨ strEndsWith a "/" then a ++ b
  else a ++ "/" ++ b

/-- `os.path.normpath` (POSIX), transcribed from CPython's `posixpath`
(the special two-leading-slash rule is omitted; the source only
normalizes relative paths). -/
def posixNormpath (p : String) : String :=
  if p = "" then "."
  else
    let isAbs := strStartsWith p "/"
    let comps := (pySplit p '/').filter (fun c => c ≠ "" ∧ c ≠ ".")
    let newComps := comps.foldl (fun (acc : List String) comp =>
      if comp ≠ ".." ∨ (¬ isAbs ∧ acc = []) ∨ (acc ≠ [] ∧ acc.getLast? = some "..")
      then acc ++ [comp]
      else if acc ≠ [] then acc.dropLast
      else acc) []
    let joined := String.intercalate "/" newComps
    let res := (if isAbs then "/" else "") ++ joined
    if res = "" then "." else res

/-- `os.path.splitext(p)[1]`: the extension, empty when the basename's
only dots are leading dots (transcribed from CPython's `genericpath`). -/
def splitextExt (p : String) : String :=
  let cs := p.data
  let sepIdx : Option Nat := (cs.reverse.findIdx? (fun c => c == '/')).map
    (fun k => cs.length - 1 - k)
  let dotIdx : Option Nat := (cs.reverse.findIdx? (fun c => c == '.')).map
    (fun k => cs.length - 1 - k)
  match dotIdx with
  | none => ""
  | some d =>
    let s := match sepIdx with | none => 0 | some i => i + 1
    if s ≤ d ∧ ((cs.drop s).take (d - s)).any (fun c => c != '.')
    then String.mk (cs.drop d)
    else ""

/-! ## Import resolution (`DependencyAnalyzer._resolve_import`) -/

/-- A recognized source file: repository-relative path, language, and the
result of reading its content (`none` models an unreadable file — the
`open`/`read` call raising). -/
abbrev SourceFile := String × String × Option String

/-- Embedding of `DependencyAnalyzer._resolve_import`. -/
def resolve_import (importName sourceFile : String)
    (sourceFiles : List SourceFile) (language : String) : Option String :=
  let known := sourceFiles.map (fun f => f.1)
  if language = "python" then
    let modulePath := strReplaceChar importName '.' '/' 
    if (modulePath ++ ".py") ∈ known then some (modulePath ++ ".py")
    else if (modulePath ++ "/__init__.py") ∈ known then
      some (modulePath ++ "/__init__.py")
    else
      let sourceDir := posixDirname sourceFile
      let relativePath := posixJoin sourceDir modulePath
      if (relativePath ++ ".py") ∈ known then some (relativePath ++ ".py")
      else if (relativePath ++ "/__init__.py") ∈ known then
        some (relativePath ++ "/__init__.py")
      else none
  else if language = "javascript" ∨ language = "typescript" then
    if strStartsWith importName "." then
      let sourceDir := posixDirname sourceFile
      let resolved := posixNormpath (posixJoin sourceDir importName)
      (["", ".js", ".jsx", ".ts", ".tsx", "/index.js", "/index.ts"].map
        (fun ext => resolved ++ ext)).find? (fun cand => known.contains cand)
    else none
  else none

/-! ## The directed graph (`networkx.DiGraph` as used by the source)

`nodes` is the node list in insertion order (kept duplicate-free, as a
dict is); `edges` is the edge list in insertion order, one entry per
`(src, tgt)` pair — `add_edge` on an existing pair only overwrites the
`import_name` attribute. -/

structure GEdge where
  src : String
  tgt : String
  imp : String
deriving DecidableEq

structure DiGraph where
  nodes : List String
  edges : List GEdge
deriving DecidableEq

/-- `graph.add_node(n)`. -/
def addNode (g : DiGraph) (n : String) : DiGraph :=
  if n ∈ g.nodes then g else DiGraph.mk (g.nodes ++ [n]) g.edges

/-- `graph.add_edge(u, v, import_name=imp)`: missing endpoints become
nodes; an existing `(u, v)` edge has its attribute overwritten. -/
def addEdge (g : DiGraph) (u v imp : String) : DiGraph :=
  let g1 := addNode (addNode g u) v
  if g1.edges.any (fun e => e.src == u && e.tgt == v) then
    DiGraph.mk g1.nodes
      (g1.edges.map (fun e => if e.src = u ∧ e.tgt = v then GEdge.mk u v imp else e))
  else DiGraph.mk g1.nodes (g1.edges ++ [GEdge.mk u v imp])

/-- `graph.successors(f)`. -/
def successors (g : DiGraph) (f : String) : List String :=
  (g.edges.filter (fun e => e.src == f)).map GEdge.tgt

/-- `graph.predecessors(f)`. -/
def predecessors (g : DiGraph) (f : String) : List String :=
  (g.edges.filter (fun e => e.tgt == f)).map GEdge.src

/-- The edge relation of the graph: `edgeRel g u v` holds when the graph
has an edge `u → v` (u imports v). -/
def edgeRel (g : DiGraph) (u v : String) : Prop :=
  ∃ imp, GEdge.mk u v imp ∈ g.edges

/-! ## Worklist closure

`get_impact_analysis` runs a worklist loop over `predecessors`; the
acyclicity check and the weak-component count traverse `successors`
and both directions.  All three are instances of the same loop, so it is
defined once, indexed by a direction. -/

inductive Dir where
  | fwd : Dir
  | bwd : Dir
  | both : Dir

/-- The neighbours visited by the loop in direction `dir`. -/
def dirNbrs (g : DiGraph) : Dir → String → List String
  | Dir.fwd, x => successors g x
  | Dir.bwd, x => predecessors g x
  | Dir.both, x => successors g x ++ predecessors g x

/-- A finite universe containing every neighbour (used only to measure
termination). -/
def dirUniv (g : DiGraph) : Dir → List String
  | Dir.fwd => (g.edges.map GEdge.tgt).dedup
  | Dir.bwd => (g.edges.map GEdge.src).dedup
  | Dir.both => (g.edges.map GEdge.tgt ++ g.edges.map GEdge.src).dedup

/-- The body of the worklist loop:
`for d in nbrs: if d not in affected: affected.add(d); stack.push(d)`.
The accumulator is `(affected, stack)`; pushes go to the stack's head
(the Python list appends to the tail and pops from the tail, which is
the same last-in-first-out discipline). -/
def closureFold (ps : List String) (acc : List String × List String) :
    List String × List String :=
  ps.foldl (fun a d => if d ∈ a.1 then a else (a.1 ++ [d], d :: a.2)) acc

/-- Termination measure for the worklist loop: universe members not yet
collected, plus pending stack entries. -/
def closureMeasure (U : Finset String) (a st : List String) : Nat :=
  (U \ a.toFinset).card + st.length

theorem sdiffCard_append_le (U : Finset String) (a : List String) (d : String) :
    (U \ (a ++ [d]).toFinset).card ≤ (U \ a.toFinset).card := by
  apply Finset.card_le_card
  apply Finset.sdiff_subset_sdiff (le_refl U)
  intro x hx
  simp only [List.toFinset_append, Finset.mem_union] at *
  exact Or.inl hx

theorem sdiffCard_append_lt (U : Finset String) (a : List String) (d : String)
    (hd : d ∈ U) (hda : d ∉ a) :
    (U \ (a ++ [d]).toFinset).card < (U \ a.toFinset).card := by
  apply Finset.card_lt_card
  rw [Finset.ssubset_iff_of_subset]
  · refine ⟨d, ?_, ?_⟩
    · simp only [Finset.mem_sdiff, List.mem_toFinset]
      exact ⟨hd, hda⟩
    · simp only [Finset.mem_sdiff, List.toFinset_append, Finset.mem_union,
        List.mem_toFinset, List.toFinset_cons, List.toFinset_nil]
      intro h
      exact h.2 (Or.inr (by simp))
  · apply Finset.sdiff_subset_sdiff (le_refl U)
    intro x hx
    simp only [List.toFinset_append, Finset.mem_union] at *
    exact Or.inl hx

theorem closureFold_measure (U : Finset String) :
    ∀ (ps : List String), (∀ d ∈ ps, d ∈ U) → ∀ (a st : List String),
    closureMeasure U (closureFold ps (a, st)).1 (closureFold ps (a, st)).2 ≤
      closureMeasure U a st := by
  intro ps
  induction ps with
  | nil => intro _ a st; exact le_refl _
  | cons d ds ih =>
    intro h a st
    have hds : ∀ x ∈ ds, x ∈ U := fun x hx => h x (List.mem_cons_of_mem _ hx)
    by_cases hd : d ∈ a
    · have : closureFold (d :: ds) (a, st) = closureFold ds (a, st) := by
        simp [closureFold, hd]
      rw [this]
      exact ih hds a st
    · have : closureFold (d :: ds) (a, st) = closureFold ds (a ++ [d], d :: st) := by
        simp [closureFold, hd]
      rw [this]
      refine le_trans (ih hds (a ++ [d]) (d :: st)) ?_
      unfold closureMeasure
      have := sdiffCard_append_lt U a d (h d (List.mem_cons_self _ _)) hd
      simp only [List.length_cons]
      omega

theorem dirNbrs_mem_univ (g : DiGraph) (dir : Dir) (x : String) :
    ∀ d ∈ dirNbrs g dir x, d ∈ (dirUniv g dir).toFinset := by
  intro d hd
  rw [List.mem_toFinset]
  cases dir with
  | fwd =>
    simp only [dirNbrs, successors, List.mem_map, List.mem_filter] at hd
    obtain ⟨e, ⟨he, _⟩, rfl⟩ := hd
    simp only [dirUniv, List.mem_dedup, List.mem_map]
    exact ⟨e, he, rfl⟩
  | bwd =>
    simp only [dirNbrs, predecessors, List.mem_map, List.mem_filter] at hd
    obtain ⟨e, ⟨he, _⟩, rfl⟩ := hd
    simp only [dirUniv, List.mem_dedup, List.mem_map]
    exact ⟨e, he, rfl⟩
  | both =>
    simp only [dirNbrs, successors, predecessors, List.mem_append, List.mem_map,
      List.mem_filter] at hd
    simp only [dirUniv, List.mem_dedup, List.mem_append, List.mem_map]
    rcases hd with ⟨e, ⟨he, _⟩, rfl⟩ | ⟨e, ⟨he, _⟩, rfl⟩
    · exact Or.inl ⟨e, he, rfl⟩
    · exact Or.inr ⟨e, he, rfl⟩

/-- The worklist loop shared by `get_impact_analysis` (direction `bwd`),
the acyclicity check (`fwd`) and the weak-component count (`both`):

```
while to_check:
    current = to_check.pop()
    for d in nbrs(current):
        if d not in affected:
            affected.add(d)
            to_check.append(d)
```
-/
def closureLoop (g : DiGraph) (dir : Dir) : List String → List String → List String
  | affected, [] => affected
  | affected, current :: rest =>
    closureLoop g dir (closureFold (dirNbrs g dir current) (affected, rest)).1
      (closureFold (dirNbrs g dir current) (affected, rest)).2
termination_by affected stack =>
  closureMeasure ((dirUniv g dir).toFinset) affected stack
decreasing_by
  have h := closureFold_measure ((dirUniv g dir).toFinset)
    (dirNbrs g dir current) (dirNbrs_mem_univ g dir current) affected rest
  simp only [closureMeasure, List.length_cons] at *
  omega


/-! ## Repository analysis (`DependencyAnalyzer.analyze_repository`)

The filesystem walk is abstracted to the list of files it yields: pairs
of a repository-relative path and the result of reading the file's
content (`none` = the read raises, i.e. a binary/permission/encoding
failure).  Everything after the walk — extension filtering, node
insertion, per-file import extraction and resolution, edge insertion,
and the per-file `except: continue` — is transcribed from the source. -/

/-- `lang_extensions` from `analyze_repository`. -/
def langExtensions : List (String × String) :=
  [(".py", "python"), (".js", "javascript"), (".jsx", "javascript"),
   (".ts", "typescript"), (".tsx", "typescript")]

/-- `source_files[path] = lang` on a Python dict: overwriting keeps the
original insertion position. -/
def sfInsert (l : List SourceFile) (path lang : String)
    (content : Option String) : List SourceFile :=
  if l.any (fun p => p.1 == path) then
    l.map (fun p => if p.1 = path then (path, lang, content) else p)
  else l ++ [(path, lang, content)]

/-- The `source_files` dict: walk results filtered to recognized
extensions (`os.path.splitext(file)[1].lower()` looked up in
`lang_extensions`), in insertion order. -/
def sourceFilesOf (files : List (String × Option String)) : List SourceFile :=
  files.foldl (fun acc f =>
    match langExtensions.lookup (strToLower (splitextExt f.1)) with
    | some lang => sfInsert acc f.1 lang f.2
    | none => acc) []

/-- `DependencyEdge` from `app/models/schemas.py`. -/
structure DependencyEdge where
  source : String
  target : String
  import_name : String
  is_external : Bool
deriving DecidableEq

/-- `DependencyGraph` from `app/models/schemas.py`. -/
structure DependencyGraph where
  nodes : List String
  edges : List DependencyEdge
deriving DecidableEq

/-- Body of the inner `for import_name in file_imports` loop of
`analyze_repository`: resolve the specifier; append a resolved edge
record and a graph edge, or an external edge record only. -/
def analyzeImportStep (sourceFiles : List SourceFile) (fp : SourceFile)
    (acc : List DependencyEdge × DiGraph) (importName : String) :
    List DependencyEdge × DiGraph :=
  match resolve_import importName fp.1 sourceFiles fp.2.1 with
  | some resolved =>
    (acc.1 ++ [DependencyEdge.mk fp.1 resolved importName false],
     addEdge acc.2 fp.1 resolved importName)
  | none =>
    (acc.1 ++ [DependencyEdge.mk fp.1 importName importName true], acc.2)

/-- Body of the outer `for file_path, language in source_files.items()`
loop: an unreadable file raises inside the `try`, is logged and skipped
(`continue`); a readable one has its imports extracted and resolved. -/
def analyzeFileStep (sourceFiles : List SourceFile)
    (acc : List DependencyEdge × DiGraph) (fp : SourceFile) :
    List DependencyEdge × DiGraph :=
  match fp.2.2 with
  | none => acc
  | some content =>
    (extract_imports content fp.2.1).foldl (analyzeImportStep sourceFiles fp) acc

/-- Embedding of `DependencyAnalyzer.analyze_repository`.  Returns the
`DependencyGraph` value the method returns, together with the
`networkx` graph it leaves in `self._graph`. -/
def analyze_repository (files : List (String × Option String)) :
    DependencyGraph × DiGraph :=
  let sourceFiles := sourceFilesOf files
  let g1 := sourceFiles.foldl (fun g p => addNode g p.1) (DiGraph.mk [] [])
  let res := sourceFiles.foldl (analyzeFileStep sourceFiles) ([], g1)
  (DependencyGraph.mk (sourceFiles.map (fun f => f.1)) res.1, res.2)

/-! ## Graph analytics

Every analytics method reads `self._graph : Optional[nx.DiGraph]`,
modelled as `Option DiGraph` (`none` = `analyze` never ran). -/

/-- Embedding of `DependencyAnalyzer.get_file_dependencies`. -/
def get_file_dependencies (graph : Option DiGraph) (filePath : String) :
    List String :=
  match graph with
  | none => []
  | some g => if filePath ∈ g.nodes then successors g filePath else []

/-- Embedding of `DependencyAnalyzer.get_file_dependents`. -/
def get_file_dependents (graph : Option DiGraph) (filePath : String) :
    List String :=
  match graph with
  | none => []
  | some g => if filePath ∈ g.nodes then predecessors g filePath else []

/-- Inner body of `get_dependency_chain`'s loop:
`if dep not in visited: visited.add(dep); next_level.append(dep)`.
The accumulator is `(next_level, visited)`. -/
def chainVisit (acc : List String × List String) (dep : String) :
    List String × List String :=
  if dep ∈ acc.2 then acc else (acc.1 ++ [dep], acc.2 ++ [dep])

/-- One level of `get_dependency_chain`: collect the unvisited
successors of every file of the current level. -/
def chainLevel (g : DiGraph) (current visited : List String) :
    List String × List String :=
  current.foldl (fun acc f => (successors g f).foldl chainVisit acc)
    ([], visited)

/-- The `for depth in range(1, max_depth + 1)` loop of
`get_dependency_chain`; each iteration collects the unvisited successors
of the current level, records them under key `level_{depth}` and stops
when a level is empty. -/
def chainLoop (g : DiGraph) : Nat → Nat → List String → List String →
    List (String × List String) → List (String × List String)
  | 0, _, _, _, chain => chain
  | fuel + 1, depth, current, visited, chain =>
    let step := chainLevel g current visited
    if step.1 = [] then chain
    else chainLoop g fuel (depth + 1) step.1 step.2
      (chain ++ [("level_" ++ toString depth, step.1)])

/-- Embedding of `DependencyAnalyzer.get_dependency_chain` (the returned
dict is the association list of `level_k` keys in insertion order; the
source's default `max_depth` is 5). -/
def get_dependency_chain (graph : Option DiGraph) (filePath : String)
    (maxDepth : Nat) : List (String × List String) :=
  match graph with
  | none => []
  | some g =>
    if filePath ∈ g.nodes then chainLoop g maxDepth 1 [filePath] [filePath] []
    else []

/-- The dict returned by `get_impact_analysis`: either the
`{"error": "File not in graph"}` dict or the full result. -/
inductive ImpactResult where
  | error : String → ImpactResult
  | ok : String → List String → Nat → List String → ImpactResult
deriving DecidableEq

def ImpactResult.totalAffected : ImpactResult → Nat
  | ImpactResult.error _ => 0
  | ImpactResult.ok _ _ t _ => t

def ImpactResult.affectedFiles : ImpactResult → List String
  | ImpactResult.error _ => []
  | ImpactResult.ok _ _ _ p => p

def ImpactResult.directDependents : ImpactResult → List String
  | ImpactResult.error _ => []
  | ImpactResult.ok _ d _ _ => d

/-- The `affected` set computed by `get_impact_analysis`'s worklist
(insertion order; Python keeps it as a `set`, whose iteration order is
unspecified — only membership, size and the ≤20 truncation matter to
any caller or claim). -/
def impactAffected (g : DiGraph) (filePath : String) : List String :=
  closureLoop g Dir.bwd [] [filePath]

/-- Embedding of `DependencyAnalyzer.get_impact_analysis`. -/
def get_impact_analysis (graph : Option DiGraph) (filePath : String) :
    ImpactResult :=
  match graph with
  | none => ImpactResult.error "File not in graph"
  | some g =>
    if filePath ∈ g.nodes then
      let affected := impactAffected g filePath
      ImpactResult.ok filePath (predecessors g filePath) affected.length
        (affected.take 20)
    else ImpactResult.error "File not in graph"

/-! ### Cycle enumeration and statistics

`find_circular_dependencies` and `get_graph_stats` call the `networkx`
library (`nx.simple_cycles`, `nx.is_directed_acyclic_graph`,
`nx.number_weakly_connected_components`), which is not part of this
repository; the three functions below model its documented behaviour.
`nx_simple_cycles` enumerates every simple cycle exactly once — each
cycle is produced rooted at its smallest-index node, roots in node
order — matching Johnson's algorithm up to enumeration order, which
`networkx` leaves unspecified. -/

/-- Depth-first search for simple cycles through `start` that avoid
nodes of index `< i` and the current path. -/
def cyclesDFS (g : DiGraph) (start : String) (i : Nat) :
    Nat → String → List String → List (List String)
  | 0, _, _ => []
  | fuel + 1, current, path =>
    (successors g current).foldl (fun acc nxt =>
      if nxt = start then acc ++ [path.reverse]
      else if List.indexOf nxt g.nodes < i ∨ nxt ∈ path then acc
      else acc ++ cyclesDFS g start i fuel nxt (nxt :: path)) []

/-- Model of `nx.simple_cycles`: all simple cycles, each rooted at its
smallest-index node, roots in node order. -/
def nx_simple_cycles (g : DiGraph) : List (List String) :=
  (List.range g.nodes.length).foldl (fun acc i =>
    match g.nodes.get? i with
    | none => acc
    | some s => acc ++ cyclesDFS g s i (g.nodes.length + 1) s [s]) []

/-- Model of `nx.is_directed_acyclic_graph`: no node reaches itself by a
non-empty directed path. -/
def nx_is_dag (g : DiGraph) : Bool :=
  !(g.nodes.any (fun n => n ∈ closureLoop g Dir.fwd [] [n]))

/-- Model of `nx.number_weakly_connected_components`: count nodes whose
undirected closure was not already visited. -/
def nx_weak_components (g : DiGraph) : Nat :=
  (g.nodes.foldl (fun (acc : Nat × List String) n =>
    if n ∈ acc.2 then acc
    else (acc.1 + 1, acc.2 ++ n :: closureLoop g Dir.both [] [n])) (0, [])).1

/-- Embedding of `DependencyAnalyzer.find_circular_dependencies`
(`list(nx.simple_cycles(graph))[:10]`; the `except` branch of the
source is dead in the model, since cycle enumeration cannot raise). -/
def find_circular_dependencies (graph : Option DiGraph) : List (List String) :=
  match graph with
  | none => []
  | some g => (nx_simple_cycles g).take 10

/-- Python's stable descending sort by the integer component
(`sorted(key=lambda x: x[1], reverse=True)`): inserting after every
element with a `≥` key preserves the original order of ties, which is
exactly what a stable descending sort produces. -/
def insertDescByDegree (x : String × Nat) : List (String × Nat) →
    List (String × Nat)
  | [] => [x]
  | y :: ys => if x.2 ≤ y.2 then y :: insertDescByDegree x ys else x :: y :: ys

/-- Embedding of `DependencyAnalyzer.get_most_imported_files`. -/
def get_most_imported_files (graph : Option DiGraph) (limit : Nat) :
    List (String × Nat) :=
  match graph with
  | none => []
  | some g =>
    let inDegrees := g.nodes.map (fun n =>
      (n, (g.edges.filter (fun e => e.tgt == n)).length))
    (inDegrees.foldl (fun acc x => insertDescByDegree x acc) []).take limit

/-- The dict returned by `get_graph_stats`: `{}` before `analyze()`, the
four statistics afterwards. -/
inductive StatsResult where
  | empty : StatsResult
  | mk : Nat → Nat → Bool → Nat → StatsResult
deriving DecidableEq

def StatsResult.isDag : StatsResult → Bool
  | StatsResult.empty => true
  | StatsResult.mk _ _ d _ => d

/-- Embedding of `DependencyAnalyzer.get_graph_stats`. -/
def get_graph_stats (graph : Option DiGraph) : StatsResult :=
  match graph with
  | none => StatsResult.empty
  | some g =>
    StatsResult.mk g.nodes.length g.edges.length (nx_is_dag g)
      (nx_weak_components g)


/-! ## AST extraction (`parser.py`)

`SyntaxNode` fields that no claim inspects (line/column spans, docstring,
parameters, return type, raw metadata) are omitted; `id` is a `Nat`
assigned in creation order, which preserves exactly the property the
source relies on (global uniqueness of the `uuid`-suffixed string ids).
-/

/-- `NodeType` from `app/models/schemas.py`. -/
inductive NodeType where
  | FUNCTION : NodeType
  | CLASS : NodeType
  | METHOD : NodeType
  | VARIABLE : NodeType
  | IMPORT : NodeType
  | MODULE : NodeType
deriving DecidableEq

/-- `ASTNode` from `app/models/schemas.py` (id, kind, name, children). -/
inductive ASTNode where
  | mk : Nat → NodeType → String → List ASTNode → ASTNode

def ASTNode.nid : ASTNode → Nat
  | ASTNode.mk i _ _ _ => i

def ASTNode.kind : ASTNode → NodeType
  | ASTNode.mk _ t _ _ => t

def ASTNode.nodeName : ASTNode → String
  | ASTNode.mk _ _ nm _ => nm

def ASTNode.children : ASTNode → List ASTNode
  | ASTNode.mk _ _ _ cs => cs

/-- A raw tree-sitter node: grammar tag, source text, children. -/
inductive RawNode where
  | mk : String → String → List RawNode → RawNode

def RawNode.tsType : RawNode → String
  | RawNode.mk t _ _ => t

def RawNode.text : RawNode → String
  | RawNode.mk _ x _ => x

def RawNode.rawChildren : RawNode → List RawNode
  | RawNode.mk _ _ cs => cs

/-- Embedding of `ParserService._map_node_type` (the `language` argument
is received and ignored, as in the source — one shared table). -/
def map_node_type (tsType : String) (language : String) : Option NodeType :=
  let _ := language
  [("function_definition", NodeType.FUNCTION),
   ("class_definition", NodeType.CLASS),
   ("import_statement", NodeType.IMPORT),
   ("import_from_statement", NodeType.IMPORT),
   ("function_declaration", NodeType.FUNCTION),
   ("arrow_function", NodeType.FUNCTION),
   ("method_definition", NodeType.METHOD),
   ("class_declaration", NodeType.CLASS),
   ("method_declaration", NodeType.METHOD),
   ("constructor_declaration", NodeType.METHOD),
   ("import_declaration", NodeType.IMPORT),
   ("field_declaration", NodeType.VARIABLE),
   ("variable_declaration", NodeType.VARIABLE),
   ("lexical_declaration", NodeType.VARIABLE)].lookup tsType

/-- Embedding of `ParserService._extract_node_name`: first child tagged
`identifier`/`type_identifier`/`name`; for an `arrow_function` whose
parent is a `variable_declarator`, the binding's identifier. -/
def extract_node_name (node : RawNode) (parent : Option RawNode) :
    Option String :=
  match node.rawChildren.find? (fun c =>
      c.tsType == "identifier" || c.tsType == "type_identifier" ||
      c.tsType == "name") with
  | some c => some c.text
  | none =>
    if node.tsType = "arrow_function" then
      match parent with
      | some p =>
        if p.tsType = "variable_declarator" then
          (p.rawChildren.find? (fun c => c.tsType == "identifier")).map
            RawNode.text
        else none
      | none => none
    else none

/-- `name or f"anonymous_{node.type}"` (Python `or`: `None` and the empty
string both fall back). -/
def nodeNameOr (extracted : Option String) (tsType : String) : String :=
  match extracted with
  | some s => if s = "" then "anonymous_" ++ tsType else s
  | none => "anonymous_" ++ tsType

/-! The recursive `walk_tree` of `_extract_nodes`.  A tracked node (one
whose tag maps to a canonical kind) returns itself; an untracked node
returns the list of tracked nodes bubbled up from its children (the
Python `None` return is the empty list).  The second component is the
running `all_nodes` list (post-order, exactly as Python appends), the
third the id counter. -/

mutual

def walkTree (language : String) (parent : Option RawNode) :
    RawNode → Nat → List ASTNode × List ASTNode × Nat
  | RawNode.mk tsType text children, ctr =>
    match map_node_type tsType language with
    | some nt =>
      let nm := nodeNameOr
        (extract_node_name (RawNode.mk tsType text children) parent) tsType
      let r := walkList language (some (RawNode.mk tsType text children))
        children (ctr + 1)
      let nodeA := ASTNode.mk ctr nt nm r.1
      ([nodeA], r.2.1 ++ [nodeA], r.2.2)
    | none =>
      let r := walkList language (some (RawNode.mk tsType text children))
        children ctr
      (r.1, r.2.1, r.2.2)

def walkList (language : String) (parent : Option RawNode) :
    List RawNode → Nat → List ASTNode × List ASTNode × Nat
  | [], ctr => ([], [], ctr)
  | c :: cs, ctr =>
    let r1 := walkTree language parent c ctr
    let r2 := walkList language parent cs r1.2.2
    (r1.1 ++ r2.1, r1.2.1 ++ r2.2.1, r2.2.2)

end

/-! Ids of all strict descendants: what `collect_descendant_ids` adds to
`child_ids` when called on a node (`nodeSelfDescIds c` is the id of `c`
together with the ids below it; `listDescIds cs` collects that over a
children list). -/

mutual

def nodeSelfDescIds : ASTNode → List Nat
  | ASTNode.mk i _ _ ccs => i :: listDescIds ccs

def listDescIds : List ASTNode → List Nat
  | [] => []
  | c :: cs => nodeSelfDescIds c ++ listDescIds cs

end

/-! The `collect_descendant_ids` post-pass mutates shared node objects in
place: every `FUNCTION` that is a direct child of a `CLASS` becomes a
`METHOD`, and the recursion flag for a node's children is `child.type ==
CLASS` (checked after the update, which never produces `CLASS`, so the
flag only depends on the direct parent).  Since the pass runs from every
discovered node and the update is idempotent, its fixpoint is the
pure top-down transformation below applied to each kept root. -/

mutual

def markNode (parentIsClass : Bool) : ASTNode → ASTNode
  | ASTNode.mk i t nm cs =>
    let t2 := if parentIsClass ∧ t = NodeType.FUNCTION then NodeType.METHOD
      else t
    ASTNode.mk i t2 nm (markList (decide (t2 = NodeType.CLASS)) cs)

def markList (insideClass : Bool) : List ASTNode → List ASTNode
  | [] => []
  | c :: cs => markNode insideClass c :: markList insideClass cs

end

/-- Embedding of `ParserService._extract_nodes`: walk the raw tree, then
return only nodes whose id appears in no other node's `children`
(`[n for n in all_nodes if n.id not in child_ids]`), with the
class-member reclassification applied. -/
def extract_nodes (language : String) (root : RawNode) : List ASTNode :=
  let w := walkTree language none root 0
  let allNodes := w.2.1
  let childIds := allNodes.foldl
    (fun acc n => acc ++ listDescIds n.children) []
  (allNodes.filter (fun n => n.nid ∉ childIds)).map (markNode false)

/-! ### The fallback extractor (`ParserService._parse_fallback`) -/

/-- `[^)]`. -/
def notCloseParen (c : Char) : Bool := c != ')'

/-- `[\w<>, ]` (Java generic type arguments). -/
def javaGenChar (c : Char) : Bool :=
  pyWord c || c == '<' || c == '>' || c == ',' || c == ' '

/-- Python fallback `^(\s*)def\s+(\w+)\s*\((.*?)\).*?:`. -/
def pyFallFuncRE : RE :=
  RE.seq (RE.group 1 (RE.starG (RE.cls pyWs)))
    (RE.seq (reStr "def") (RE.seq (rePlusG (RE.cls pyWs))
      (RE.seq (RE.group 2 (rePlusG (RE.cls pyWord)))
        (RE.seq (RE.starG (RE.cls pyWs)) (RE.seq (reStr "(")
          (RE.seq (RE.group 3 (RE.starL (RE.cls pyDot)))
            (RE.seq (reStr ")") (RE.seq (RE.starL (RE.cls pyDot))
              (reStr ":")))))))))

/-- Python fallback `^(\s*)class\s+(\w+).*?:`. -/
def pyFallClassRE : RE :=
  RE.seq (RE.group 1 (RE.starG (RE.cls pyWs)))
    (RE.seq (reStr "class") (RE.seq (rePlusG (RE.cls pyWs))
      (RE.seq (RE.group 2 (rePlusG (RE.cls pyWord)))
        (RE.seq (RE.starL (RE.cls pyDot)) (reStr ":")))))

/-- Python fallback `^(?:from\s+\S+\s+)?import\s+.+`. -/
def pyFallImportRE : RE :=
  RE.seq (RE.optG (RE.seq (reStr "from") (RE.seq (rePlusG (RE.cls pyWs))
      (RE.seq (rePlusG (RE.cls pyNonWs)) (rePlusG (RE.cls pyWs))))))
    (RE.seq (reStr "import") (RE.seq (rePlusG (RE.cls pyWs))
      (rePlusG (RE.cls pyDot))))

/-- JS/TS fallback
`(?:async\s+)?(?:function\s+(\w+)|(?:const|let|var)\s+(\w+)\s*=\s*(?:async\s+)?(?:\([^)]*\)|[\w]+)\s*=>)`. -/
def jsFallFuncRE : RE :=
  RE.seq (RE.optG (RE.seq (reStr "async") (rePlusG (RE.cls pyWs))))
    (RE.alt
      (RE.seq (reStr "function") (RE.seq (rePlusG (RE.cls pyWs))
        (RE.group 1 (rePlusG (RE.cls pyWord)))))
      (RE.seq (RE.alt (reStr "const") (RE.alt (reStr "let") (reStr "var")))
        (RE.seq (rePlusG (RE.cls pyWs))
          (RE.seq (RE.group 2 (rePlusG (RE.cls pyWord)))
            (RE.seq (RE.starG (RE.cls pyWs)) (RE.seq (reStr "=")
              (RE.seq (RE.starG (RE.cls pyWs))
                (RE.seq (RE.optG (RE.seq (reStr "async")
                    (rePlusG (RE.cls pyWs))))
                  (RE.seq (RE.alt
                      (RE.seq (reStr "(")
                        (RE.seq (RE.starG (RE.cls notCloseParen)) (reStr ")")))
                      (rePlusG (RE.cls pyWord)))
                    (RE.seq (RE.starG (RE.cls pyWs)) (reStr "=>")))))))))))

/-- JS/TS fallback `class\s+(\w+)`. -/
def jsFallClassRE : RE :=
  RE.seq (reStr "class") (RE.seq (rePlusG (RE.cls pyWs))
    (RE.group 1 (rePlusG (RE.cls pyWord))))

/-- JS/TS and Java fallback `^import\s+.+`. -/
def jsFallImportRE : RE :=
  RE.seq (reStr "import") (RE.seq (rePlusG (RE.cls pyWs))
    (rePlusG (RE.cls pyDot)))

/-- Java fallback
`^(\s*)(?:public|private|protected)?\s*(?:abstract\s+|final\s+|static\s+)*class\s+(\w+)`. -/
def javaClassRE : RE :=
  RE.seq (RE.group 1 (RE.starG (RE.cls pyWs)))
    (RE.seq (RE.optG (RE.alt (reStr "public")
        (RE.alt (reStr "private") (reStr "protected"))))
      (RE.seq (RE.starG (RE.cls pyWs))
        (RE.seq (RE.starG (RE.alt
            (RE.seq (reStr "abstract") (rePlusG (RE.cls pyWs)))
            (RE.alt (RE.seq (reStr "final") (rePlusG (RE.cls pyWs)))
              (RE.seq (reStr "static") (rePlusG (RE.cls pyWs))))))
          (RE.seq (reStr "class") (RE.seq (rePlusG (RE.cls pyWs))
            (RE.group 2 (rePlusG (RE.cls pyWord))))))))

/-- Java fallback
`^(\s+)(?:public|private|protected)\s+(?:static\s+|final\s+|abstract\s+|synchronized\s+)*(?:\w+(?:<[\w<>, ]+>)?)\s+(\w+)\s*\(`. -/
def javaMethodRE : RE :=
  RE.seq (RE.group 1 (rePlusG (RE.cls pyWs)))
    (RE.seq (RE.alt (reStr "public")
        (RE.alt (reStr "private") (reStr "protected")))
      (RE.seq (rePlusG (RE.cls pyWs))
        (RE.seq (RE.starG (RE.alt
            (RE.seq (reStr "static") (rePlusG (RE.cls pyWs)))
            (RE.alt (RE.seq (reStr "final") (rePlusG (RE.cls pyWs)))
              (RE.alt (RE.seq (reStr "abstract") (rePlusG (RE.cls pyWs)))
                (RE.seq (reStr "synchronized") (rePlusG (RE.cls pyWs)))))))
          (RE.seq (RE.seq (rePlusG (RE.cls pyWord))
              (RE.optG (RE.seq (reStr "<")
                (RE.seq (rePlusG (RE.cls javaGenChar)) (reStr ">")))))
            (RE.seq (rePlusG (RE.cls pyWs))
              (RE.seq (RE.group 2 (rePlusG (RE.cls pyWord)))
                (RE.seq (RE.starG (RE.cls pyWs)) (reStr "("))))))))

/-- Java fallback `^(\s+)(?:public|private|protected)\s+(\w+)\s*\(`. -/
def javaCtorRE : RE :=
  RE.seq (RE.group 1 (rePlusG (RE.cls pyWs)))
    (RE.seq (RE.alt (reStr "public")
        (RE.alt (reStr "private") (reStr "protected")))
      (RE.seq (rePlusG (RE.cls pyWs))
        (RE.seq (RE.group 2 (rePlusG (RE.cls pyWord)))
          (RE.seq (RE.starG (RE.cls pyWs)) (reStr "(")))))

/-- Append a child to an `ASTNode` (the Python code mutates
`current_class.children`). -/
def astAppendChild : ASTNode → ASTNode → ASTNode
  | ASTNode.mk i t nm cs, c => ASTNode.mk i t nm (cs ++ [c])

/-- One line of the Python branch of `_parse_fallback`: the function,
class and import patterns are tried independently, each appending a
node. -/
def pyFallLine (line : String) (acc : List ASTNode × Nat) :
    List ASTNode × Nat :=
  let acc := match reMatch pyFallFuncRE line with
    | some (_, caps) =>
      match capStr line caps 2 with
      | some nm => (acc.1 ++ [ASTNode.mk acc.2 NodeType.FUNCTION nm []],
          acc.2 + 1)
      | none => acc
    | none => acc
  let acc := match reMatch pyFallClassRE line with
    | some (_, caps) =>
      match capStr line caps 2 with
      | some nm => (acc.1 ++ [ASTNode.mk acc.2 NodeType.CLASS nm []],
          acc.2 + 1)
      | none => acc
    | none => acc
  match reMatch pyFallImportRE (pyStrip line) with
  | some _ => (acc.1 ++ [ASTNode.mk acc.2 NodeType.IMPORT (pyStrip line) []],
      acc.2 + 1)
  | none => acc

/-- One line of the JS/TS branch of `_parse_fallback`. -/
def jsFallLine (line : String) (acc : List ASTNode × Nat) :
    List ASTNode × Nat :=
  let acc := match reSearch jsFallFuncRE line with
    | some (_, _, caps) =>
      match (capStr line caps 1).orElse (fun _ => capStr line caps 2) with
      | some nm =>
        if nm = "" then acc
        else (acc.1 ++ [ASTNode.mk acc.2 NodeType.FUNCTION nm []], acc.2 + 1)
      | none => acc
    | none => acc
  let acc := match reSearch jsFallClassRE line with
    | some (_, _, caps) =>
      match capStr line caps 1 with
      | some nm => (acc.1 ++ [ASTNode.mk acc.2 NodeType.CLASS nm []],
          acc.2 + 1)
      | none => acc
    | none => acc
  match reMatch jsFallImportRE (pyStrip line) with
  | some _ => (acc.1 ++ [ASTNode.mk acc.2 NodeType.IMPORT (pyStrip line) []],
      acc.2 + 1)
  | none => acc

/-- State of the Java branch: nodes so far, index of the current class
in that list (its children still being appended to), id counter. -/
structure JavaFallState where
  nodes : List ASTNode
  currentIdx : Option Nat
  ctr : Nat

/-- One line of the Java branch of `_parse_fallback` (each successful
pattern ends the line's processing, mirroring the `continue`
statements; parameter extraction is omitted with the `parameters`
field). -/
def javaFallLine (line : String) (st : JavaFallState) : JavaFallState :=
  let stripped := pyStrip line
  match reMatch javaClassRE line with
  | some (_, caps) =>
    match capStr line caps 2 with
    | some nm =>
      JavaFallState.mk
        (st.nodes ++ [ASTNode.mk st.ctr NodeType.CLASS nm []])
        (some st.nodes.length) (st.ctr + 1)
    | none => st
  | none =>
    match reMatch javaMethodRE line, st.currentIdx with
    | some (_, caps), some k =>
      match capStr line caps 2, st.nodes.get? k with
      | some nm, some cls =>
        JavaFallState.mk
          (st.nodes.set k
            (astAppendChild cls (ASTNode.mk st.ctr NodeType.METHOD nm [])))
          st.currentIdx (st.ctr + 1)
      | _, _ => st
    | _, _ =>
      match reMatch javaCtorRE line, st.currentIdx with
      | some (_, caps), some k =>
        match capStr line caps 2, st.nodes.get? k with
        | some nm, some cls =>
          if nm = cls.nodeName then
            JavaFallState.mk
              (st.nodes.set k
                (astAppendChild cls (ASTNode.mk st.ctr NodeType.METHOD nm [])))
              st.currentIdx (st.ctr + 1)
          else
            match reMatch jsFallImportRE stripped with
            | some _ =>
              JavaFallState.mk
                (st.nodes ++ [ASTNode.mk st.ctr NodeType.IMPORT stripped []])
                st.currentIdx (st.ctr + 1)
            | none => st
        | _, _ => st
      | _, _ =>
        match reMatch jsFallImportRE stripped with
        | some _ =>
          JavaFallState.mk
            (st.nodes ++ [ASTNode.mk st.ctr NodeType.IMPORT stripped []])
            st.currentIdx (st.ctr + 1)
        | none => st

/-- Embedding of `ParserService._parse_fallback`. -/
def parse_fallback (content language filePath : String) : List ASTNode :=
  let _ := filePath
  let lines := pySplit content '\n' 
  if language = "python" then
    (lines.foldl (fun acc line => pyFallLine line acc) ([], 0)).1
  else if language = "javascript" ∨ language = "typescript" then
    (lines.foldl (fun acc line => jsFallLine line acc) ([], 0)).1
  else if language = "java" then
    (lines.foldl (fun st line => javaFallLine line st)
      (JavaFallState.mk [] none 0)).nodes
  else []

/-! ### `parse_file` and parser initialization

`_initialize_parsers` wraps the grammar-adapter imports and
constructions in `try: ... except ImportError:`; any other exception
raised there propagates.  The environment below captures the outcome of
that external code: `initResult` is either the registered language list,
or the pair of the languages registered before an exception and the
exception's kind; `grammarParse` is the tree-sitter parser's behaviour
per language and content. -/

inductive PyExc where
  | importError : PyExc
  | otherError : PyExc
deriving DecidableEq

structure ParseEnv where
  initResult : Except (List String × PyExc) (List String)
  grammarParse : String → String → Except PyExc RawNode

/-- Embedding of `ParserService._initialize_parsers`: an `ImportError`
is caught (leaving whatever adapters were registered before it), any
other exception propagates to the caller. -/
def runInit (env : ParseEnv) : Except PyExc (List String) :=
  match env.initResult with
  | Except.ok regs => Except.ok regs
  | Except.error (regs, PyExc.importError) => Except.ok regs
  | Except.error (_, PyExc.otherError) => Except.error PyExc.otherError

/-- Embedding of `ParserService.parse_file`: initialize the registry
(outside any local `try`), route unregistered languages to the
fallback, and catch any grammar-parse failure locally, degrading to the
fallback. -/
def parse_file (env : ParseEnv) (content language filePath : String) :
    Except PyExc (List ASTNode) :=
  match runInit env with
  | Except.error e => Except.error e
  | Except.ok regs =>
    if language ∈ regs then
      match env.grammarParse language content with
      | Except.ok tree => Except.ok (extract_nodes language tree)
      | Except.error _ => Except.ok (parse_fallback content language filePath)
    else Except.ok (parse_fallback content language filePath)

/-! ### The P2 well-formedness predicate -/

mutual

/-- No directly-owned child of a `CLASS` node has kind `FUNCTION`,
recursively. -/
def p2Node : ASTNode → Bool
  | ASTNode.mk _ t _ cs =>
    (!(t == NodeType.CLASS) ||
      cs.all (fun c => !(c.kind == NodeType.FUNCTION))) && p2List cs

def p2List : List ASTNode → Bool
  | [] => true
  | c :: cs => p2Node c && p2List cs

end


/-! ## Sample inputs used by scenario claims -/

/-- A raw `function_definition` node named `nm` (tree-sitter shape). -/
def fnRaw (nm : String) : RawNode :=
  RawNode.mk "function_definition" "" [RawNode.mk "identifier" nm []]

/-- Scenario C input: a module holding `class Greeter` whose block holds
`__init__` and `hello`. -/
def greeterRaw : RawNode :=
  RawNode.mk "module" ""
    [RawNode.mk "class_definition" ""
      [RawNode.mk "identifier" "Greeter" [],
       RawNode.mk "block" "" [fnRaw "__init__", fnRaw "hello"]]]

/-- A repository with ten mutually-importing pairs `ck.py`/`dk.py`
listed before the mutually-importing pair `a.py`/`b.py`: every pair is a
simple cycle, so the full enumeration holds eleven cycles and the
`[:10]` cap of `find_circular_dependencies` drops the `a`–`b` cycle. -/
def manyCyclesRepo : List (String × Option String) :=
  ((List.range 10).bind (fun k =>
    [("c" ++ toString k ++ ".py", some ("import d" ++ toString k)),
     ("d" ++ toString k ++ ".py", some ("import c" ++ toString k))])) ++
  [("a.py", some "import b"), ("b.py", some "import a")]

/-! # Theorems

One theorem per claim (C1–C10), with witnesses for theorems that carry
hypotheses and counterexamples where a claim fails on the code. -/

/-! ## C3: the risk-score arithmetic and the level thresholds -/

/-- `calculate_risk_score` with its `let` chain reduced (definitional). -/
theorem calculate_risk_score_eval (ta dd : Int) (hc ss : Bool) :
    calculate_risk_score ta dd hc ss =
      max 0 (min (if ss then
          max 0 (0 + min (ta * 8) 60 + min (dd * 10) 25
            + (if hc then (15 : Int) else 0) - 10)
        else 0 + min (ta * 8) 60 + min (dd * 10) 25
            + (if hc then (15 : Int) else 0)) 100) := rfl

/-- C3: for all integers `total_affected ≥ 0`, `direct_dependents ≥ 0`
and booleans `has_cycle`, `symbol_scoped`, the risk score equals
`min(total_affected*8, 60) + min(direct_dependents*10, 25)
+ (15 if has_cycle else 0) − (10 if symbol_scoped else 0)` clamped to
`[0,100]`; and the level of a score is "high" iff `score ≥ 70`,
"medium" iff `35 ≤ score < 70`, and "low" otherwise. -/
theorem risk_score_matches_spec_and_levels
    (ta dd : Int) (hc ss : Bool) (hta : 0 ≤ ta) (hdd : 0 ≤ dd) (s : Int) :
    calculate_risk_score ta dd hc ss = riskScoreSpec ta dd hc ss ∧
    (risk_level s = "high" ↔ 70 ≤ s) ∧
    (risk_level s = "medium" ↔ 35 ≤ s ∧ s < 70) ∧
    (risk_level s = "low" ↔ s < 35) := by
  refine ⟨?_, ?_, ?_, ?_⟩
  · rw [calculate_risk_score_eval]; unfold riskScoreSpec
    cases hc <;> cases ss <;>
      simp only [Bool.false_eq_true, if_true, if_false] <;>
      generalize min (ta * 8) 60 = m1 <;>
      generalize min (dd * 10) 25 = m2 <;> omega
  all_goals
    unfold risk_level
    split_ifs <;> simp <;> omega

/-- Witness for C3 at `total_affected = 3`, `direct_dependents = 2`,
`has_cycle = true`, `symbol_scoped = false`, `score = 50`. -/
theorem risk_score_matches_spec_and_levels_witness :
    calculate_risk_score 3 2 true false = riskScoreSpec 3 2 true false ∧
    (risk_level 50 = "high" ↔ (70 : Int) ≤ 50) ∧
    (risk_level 50 = "medium" ↔ (35 : Int) ≤ 50 ∧ (50 : Int) < 70) ∧
    (risk_level 50 = "low" ↔ (50 : Int) < 35) :=
  risk_score_matches_spec_and_levels 3 2 true false (by norm_num) (by norm_num) 50

/-! ## C9: monotonicity and boundedness of the risk score -/

/-- C9: with `has_cycle` and `symbol_scoped` fixed, the risk score is
non-decreasing in `total_affected` and in `direct_dependents`, and it
always lies in `[0, 100]`. -/
theorem risk_score_monotone_and_bounded
    (ta ta2 dd dd2 : Int) (hc ss : Bool) :
    (ta ≤ ta2 → dd ≤ dd2 →
      calculate_risk_score ta dd hc ss ≤ calculate_risk_score ta2 dd2 hc ss) ∧
    0 ≤ calculate_risk_score ta dd hc ss ∧
    calculate_risk_score ta dd hc ss ≤ 100 := by
  refine ⟨fun h1 h2 => ?_, ?_, ?_⟩
  · rw [calculate_risk_score_eval, calculate_risk_score_eval]
    have hm1 : min (ta * 8) 60 ≤ min (ta2 * 8) 60 := by omega
    have hm2 : min (dd * 10) 25 ≤ min (dd2 * 10) 25 := by omega
    cases hc <;> cases ss <;>
      simp only [Bool.false_eq_true, if_true, if_false] <;>
      generalize min (ta * 8) 60 = m1 at hm1 ⊢ <;>
      generalize min (ta2 * 8) 60 = m1b at hm1 ⊢ <;>
      generalize min (dd * 10) 25 = m2 at hm2 ⊢ <;>
      generalize min (dd2 * 10) 25 = m2b at hm2 ⊢ <;>
      omega
  all_goals
    rw [calculate_risk_score_eval]
    cases hc <;> cases ss <;>
      simp only [Bool.false_eq_true, if_true, if_false] <;>
      generalize min (ta * 8) 60 = m1 <;>
      generalize min (dd * 10) 25 = m2 <;>
      omega

/-- Witness for C9 at `2 ≤ 9` (affected) and `1 ≤ 4` (dependents). -/
theorem risk_score_monotone_and_bounded_witness :
    ((2 : Int) ≤ 9 → (1 : Int) ≤ 4 →
      calculate_risk_score 2 1 true true ≤ calculate_risk_score 9 4 true true) ∧
    0 ≤ calculate_risk_score 2 1 true true ∧
    calculate_risk_score 2 1 true true ≤ 100 :=
  risk_score_monotone_and_bounded 2 9 1 4 true true

/-! ## C4: analytics before `analyze()` -/

/-- C4 (amended): invoked before `analyze()` has ever run
(`self._graph is None`), `get_file_dependencies`, `get_file_dependents`,
`get_dependency_chain`, `find_circular_dependencies`,
`get_most_imported_files` and `get_graph_stats` return empty results —
but `get_impact_analysis` returns the dict
`{"error": "File not in graph"}`, not an empty dict.  No operation
raises (all are total functions). -/
theorem analytics_uninitialized_results
    (f : String) (d limit : Nat) :
    get_file_dependencies none f = [] ∧
    get_file_dependents none f = [] ∧
    get_dependency_chain none f d = [] ∧
    find_circular_dependencies none = [] ∧
    get_most_imported_files none limit = [] ∧
    get_graph_stats none = StatsResult.empty ∧
    get_impact_analysis none f = ImpactResult.error "File not in graph" :=
  ⟨rfl, rfl, rfl, rfl, rfl, rfl, rfl⟩

/-- C4 counterexample: before `analyze()` has run,
`get_impact_analysis` does not return an empty result — it returns the
non-empty dict `{"error": "File not in graph"}`. -/
theorem analytics_uninitialized_impact_not_empty :
    get_impact_analysis none "app.py" = ImpactResult.error "File not in graph" ∧
    ∀ msg, ImpactResult.error msg ≠
      ImpactResult.ok "app.py" [] 0 [] :=
  ⟨rfl, fun _ h => ImpactResult.noConfusion h⟩


/-! ## C5: class members are methods in canonical output -/

theorem markNode_kind (b : Bool) (n : ASTNode) :
    (markNode b n).kind =
      if b ∧ n.kind = NodeType.FUNCTION then NodeType.METHOD else n.kind := by
  cases n; rfl

theorem markList_kind_ne_function (cs : List ASTNode) :
    ∀ c ∈ markList true cs, ¬ c.kind = NodeType.FUNCTION := by
  induction cs with
  | nil => intro c hc; cases hc
  | cons d ds ih =>
    intro c hc
    rw [markList] at hc
    cases hc with
    | head =>
      rw [markNode_kind]
      by_cases hd : d.kind = NodeType.FUNCTION <;> simp [hd]
    | tail _ hc => exact ih c hc

mutual

theorem p2_markNode (b : Bool) (n : ASTNode) : p2Node (markNode b n) = true :=
  match n with
  | ASTNode.mk i t nm cs => by
    show p2Node (ASTNode.mk i _ nm (markList _ cs)) = true
    rw [p2Node, Bool.and_eq_true]
    refine ⟨?_, p2_markList _ cs⟩
    rw [Bool.or_eq_true]
    by_cases hcl :
        (if b ∧ t = NodeType.FUNCTION then NodeType.METHOD else t) =
          NodeType.CLASS
    · right
      rw [List.all_eq_true]
      intro c hc
      have hflag : decide ((if b ∧ t = NodeType.FUNCTION then NodeType.METHOD
          else t) = NodeType.CLASS) = true := by simp [hcl]
      rw [hflag] at hc
      have := markList_kind_ne_function cs c hc
      simp [this]
    · left
      simp [hcl]

theorem p2_markList (b : Bool) (l : List ASTNode) : p2List (markList b l) = true :=
  match l with
  | [] => rfl
  | c :: cs => by
    rw [markList, p2List, Bool.and_eq_true]
    exact ⟨p2_markNode b c, p2_markList b cs⟩

end

theorem p2List_map_mark (l : List ASTNode) :
    p2List (l.map (markNode false)) = true := by
  induction l with
  | nil => rfl
  | cons c cs ih =>
    rw [List.map_cons, p2List, Bool.and_eq_true]
    exact ⟨p2_markNode false c, ih⟩

/-- C5: in the canonical forest produced by `_extract_nodes`, no `CLASS`
node directly owns a `FUNCTION` child (every function directly owned by
a class is reported `METHOD`), and on the `Greeter` sample the output
is a single top-level `CLASS` with two `METHOD` children — neither
`__init__` nor `hello` is top-level. -/
theorem class_children_are_methods (language : String) (root : RawNode) :
    p2List (extract_nodes language root) = true ∧
    extract_nodes "python" greeterRaw =
      [ASTNode.mk 0 NodeType.CLASS "Greeter"
        [ASTNode.mk 1 NodeType.METHOD "__init__" [],
         ASTNode.mk 2 NodeType.METHOD "hello" []]] ∧
    ∀ n ∈ extract_nodes "python" greeterRaw,
      n.nodeName ≠ "__init__" ∧ n.nodeName ≠ "hello" := by
  refine ⟨?_, rfl, ?_⟩
  · unfold extract_nodes
    exact p2List_map_mark _
  · intro n hn
    rw [show extract_nodes "python" greeterRaw =
      [ASTNode.mk 0 NodeType.CLASS "Greeter"
        [ASTNode.mk 1 NodeType.METHOD "__init__" [],
         ASTNode.mk 2 NodeType.METHOD "hello" []]] from rfl] at hn
    rw [List.mem_singleton] at hn
    subst hn
    exact ⟨by decide, by decide⟩


/-! ## C1: unreadable files — skipped for edges, kept as nodes -/

theorem sfInsert_keys (l : List SourceFile) (path lang : String)
    (content : Option String) :
    (sfInsert l path lang content).map (fun f => f.1) = l.map (fun f => f.1) ∨
    (sfInsert l path lang content).map (fun f => f.1) =
      l.map (fun f => f.1) ++ [path] ∧ path ∉ l.map (fun f => f.1) := by
  unfold sfInsert
  by_cases h : l.any (fun p => p.1 == path) = true
  · left
    rw [if_pos h, List.map_map]
    apply List.map_congr_left
    intro q hq
    by_cases hqp : q.1 = path
    · simp [hqp]
    · simp [hqp]
  · right
    rw [if_neg h]
    constructor
    · simp
    · intro hmem
      apply h
      rw [List.any_eq_true]
      rw [List.mem_map] at hmem
      obtain ⟨q, hq, hqe⟩ := hmem
      exact ⟨q, hq, by simp [hqe]⟩

theorem sourceFilesOf_keys_nodup (files : List (String × Option String)) :
    ((sourceFilesOf files).map (fun f => f.1)).Nodup := by
  unfold sourceFilesOf
  suffices h : ∀ (fs : List (String × Option String)) (acc : List SourceFile),
      (acc.map (fun f => f.1)).Nodup →
      ((fs.foldl (fun acc f =>
        match langExtensions.lookup (strToLower (splitextExt f.1)) with
        | some lang => sfInsert acc f.1 lang f.2
        | none => acc) acc).map (fun f => f.1)).Nodup by
    exact h files [] List.nodup_nil
  intro fs
  induction fs with
  | nil => intro acc h; exact h
  | cons f fs ih =>
    intro acc h
    rw [List.foldl_cons]
    cases hlk : langExtensions.lookup (strToLower (splitextExt f.1)) with
    | none => exact ih acc h
    | some lang =>
      apply ih
      rcases sfInsert_keys acc f.1 lang f.2 with heq | ⟨heq, hnm⟩
      · rw [heq]; exact h
      · rw [heq]
        exact List.Nodup.append h (List.nodup_singleton _)
          (by intro x hx hx2; rw [List.mem_singleton] at hx2; subst hx2;
              exact hnm hx)

theorem mem_addNode_nodes (g : DiGraph) (n x : String) :
    x ∈ (addNode g n).nodes ↔ x ∈ g.nodes ∨ x = n := by
  unfold addNode
  by_cases h : n ∈ g.nodes
  · rw [if_pos h]
    constructor
    · exact fun hx => Or.inl hx
    · rintro (hx | rfl)
      · exact hx
      · exact h
  · rw [if_neg h]
    simp

theorem addNode_edges (g : DiGraph) (n : String) :
    (addNode g n).edges = g.edges := by
  unfold addNode; split <;> rfl

theorem mem_addEdge_edges (g : DiGraph) (u v imp : String) (ge : GEdge) :
    ge ∈ (addEdge g u v imp).edges →
      (ge.src = u ∧ ge.tgt = v) ∨ ge ∈ g.edges := by
  unfold addEdge
  intro hge
  by_cases h : (addNode (addNode g u) v).edges.any
      (fun e => e.src == u && e.tgt == v) = true
  · rw [if_pos h] at hge
    simp only [List.mem_map] at hge
    obtain ⟨e, he, hee⟩ := hge
    by_cases hm : e.src = u ∧ e.tgt = v
    · rw [if_pos hm] at hee
      left; rw [← hee]
      exact ⟨rfl, rfl⟩
    · rw [if_neg hm] at hee
      right
      rw [addNode_edges, addNode_edges] at he
      rw [← hee]
      exact he
  · rw [if_neg h] at hge
    rw [List.mem_append] at hge
    rcases hge with hge | hge
    · right
      rw [addNode_edges, addNode_edges] at hge
      exact hge
    · rw [List.mem_singleton] at hge
      subst hge
      left; exact ⟨rfl, rfl⟩

/-- Edge records and graph edges produced by the inner import loop all
keep sources that are readable files of the dict. -/
theorem analyzeImportFold_sources (sourceFiles : List SourceFile)
    (fp : SourceFile) (hfp : fp ∈ sourceFiles) (hsome : fp.2.2.isSome = true)
    (imports : List String) (acc : List DependencyEdge × DiGraph)
    (hrec : ∀ e ∈ acc.1, ∃ q ∈ sourceFiles, q.1 = e.source ∧ q.2.2.isSome = true)
    (hg : ∀ ge ∈ acc.2.edges,
      ∃ q ∈ sourceFiles, q.1 = ge.src ∧ q.2.2.isSome = true) :
    (∀ e ∈ (imports.foldl (analyzeImportStep sourceFiles fp) acc).1,
      ∃ q ∈ sourceFiles, q.1 = e.source ∧ q.2.2.isSome = true) ∧
    (∀ ge ∈ (imports.foldl (analyzeImportStep sourceFiles fp) acc).2.edges,
      ∃ q ∈ sourceFiles, q.1 = ge.src ∧ q.2.2.isSome = true) := by
  induction imports generalizing acc with
  | nil => exact ⟨hrec, hg⟩
  | cons imp imps ih =>
    rw [List.foldl_cons]
    apply ih
    · intro e he
      unfold analyzeImportStep at he
      cases hres : resolve_import imp fp.1 sourceFiles fp.2.1 with
      | some resolved =>
        rw [hres] at he
        rw [List.mem_append] at he
        rcases he with he | he
        · exact hrec e he
        · rw [List.mem_singleton] at he
          subst he
          exact ⟨fp, hfp, rfl, hsome⟩
      | none =>
        rw [hres] at he
        rw [List.mem_append] at he
        rcases he with he | he
        · exact hrec e he
        · rw [List.mem_singleton] at he
          subst he
          exact ⟨fp, hfp, rfl, hsome⟩
    · intro ge hge
      unfold analyzeImportStep at hge
      cases hres : resolve_import imp fp.1 sourceFiles fp.2.1 with
      | some resolved =>
        rw [hres] at hge
        rcases mem_addEdge_edges acc.2 fp.1 resolved imp ge hge with ⟨hsrc, _⟩ | hge
        · exact ⟨fp, hfp, hsrc.symm, hsome⟩
        · exact hg ge hge
      | none =>
        rw [hres] at hge
        exact hg ge hge

/-- Every aggregated edge record and graph edge of the repository scan
has a readable source file as its source. -/
theorem analyzeFold_sources (sourceFiles : List SourceFile)
    (fps : List SourceFile) (hfps : ∀ fp ∈ fps, fp ∈ sourceFiles)
    (acc : List DependencyEdge × DiGraph)
    (hrec : ∀ e ∈ acc.1, ∃ q ∈ sourceFiles, q.1 = e.source ∧ q.2.2.isSome = true)
    (hg : ∀ ge ∈ acc.2.edges,
      ∃ q ∈ sourceFiles, q.1 = ge.src ∧ q.2.2.isSome = true) :
    (∀ e ∈ (fps.foldl (analyzeFileStep sourceFiles) acc).1,
      ∃ q ∈ sourceFiles, q.1 = e.source ∧ q.2.2.isSome = true) ∧
    (∀ ge ∈ (fps.foldl (analyzeFileStep sourceFiles) acc).2.edges,
      ∃ q ∈ sourceFiles, q.1 = ge.src ∧ q.2.2.isSome = true) := by
  induction fps generalizing acc with
  | nil => exact ⟨hrec, hg⟩
  | cons fp fps ih =>
    rw [List.foldl_cons]
    have hfpmem : fp ∈ sourceFiles := hfps fp (List.mem_cons_self _ _)
    have hfps2 : ∀ q ∈ fps, q ∈ sourceFiles :=
      fun q hq => hfps q (List.mem_cons_of_mem _ hq)
    apply ih hfps2
    all_goals
      unfold analyzeFileStep
      cases hc : fp.2.2 with
      | none => first
        | exact hrec
        | exact hg
      | some content =>
        have hsome : fp.2.2.isSome = true := by rw [hc]; rfl
        first
        | exact (analyzeImportFold_sources sourceFiles fp hfpmem hsome
            (extract_imports content fp.2.1) acc hrec hg).1
        | exact (analyzeImportFold_sources sourceFiles fp hfpmem hsome
            (extract_imports content fp.2.1) acc hrec hg).2

theorem foldl_addNode_edges (fps : List SourceFile) (g : DiGraph) :
    (fps.foldl (fun g p => addNode g p.1) g).edges = g.edges := by
  induction fps generalizing g with
  | nil => rfl
  | cons fp fps ih =>
    rw [List.foldl_cons, ih, addNode_edges]

theorem foldl_addNode_mem (fps : List SourceFile) :
    ∀ (g : DiGraph) (p : String),
    (p ∈ g.nodes ∨ ∃ q ∈ fps, q.1 = p) →
    p ∈ (fps.foldl (fun g q => addNode g q.1) g).nodes := by
  induction fps with
  | nil =>
    intro g p h
    rcases h with h | ⟨q, hq, _⟩
    · exact h
    · cases hq
  | cons fp fps ih =>
    intro g p h
    rw [List.foldl_cons]
    apply ih
    rcases h with h | ⟨q, hq, hqp⟩
    · exact Or.inl ((mem_addNode_nodes g fp.1 p).mpr (Or.inl h))
    · rcases List.mem_cons.mp hq with heq | hq
      · exact Or.inl ((mem_addNode_nodes g fp.1 p).mpr
          (Or.inr (heq ▸ hqp).symm))
      · exact Or.inr ⟨q, hq, hqp⟩

theorem addEdge_nodes (g : DiGraph) (u v imp : String) :
    (addEdge g u v imp).nodes = (addNode (addNode g u) v).nodes := by
  unfold addEdge
  dsimp only
  split <;> rfl

theorem mem_addEdge_nodes_of (g : DiGraph) (u v imp : String) (x : String)
    (h : x ∈ g.nodes) : x ∈ (addEdge g u v imp).nodes := by
  rw [addEdge_nodes]
  exact (mem_addNode_nodes _ v x).mpr
    (Or.inl ((mem_addNode_nodes g u x).mpr (Or.inl h)))

theorem analyzeImportFold_nodes_mono (sourceFiles : List SourceFile)
    (fp : SourceFile) (imports : List String)
    (acc : List DependencyEdge × DiGraph) (p : String) (h : p ∈ acc.2.nodes) :
    p ∈ (imports.foldl (analyzeImportStep sourceFiles fp) acc).2.nodes := by
  induction imports generalizing acc with
  | nil => exact h
  | cons imp imps ih =>
    rw [List.foldl_cons]
    apply ih
    unfold analyzeImportStep
    cases hres : resolve_import imp fp.1 sourceFiles fp.2.1 with
    | some resolved => exact mem_addEdge_nodes_of acc.2 fp.1 resolved imp p h
    | none => exact h

theorem analyzeFold_nodes_mono (sourceFiles : List SourceFile)
    (fps : List SourceFile) (acc : List DependencyEdge × DiGraph) (p : String)
    (h : p ∈ acc.2.nodes) :
    p ∈ (fps.foldl (analyzeFileStep sourceFiles) acc).2.nodes := by
  induction fps generalizing acc with
  | nil => exact h
  | cons fp fps ih =>
    rw [List.foldl_cons]
    apply ih
    unfold analyzeFileStep
    cases fp.2.2 with
    | none => exact h
    | some content => exact analyzeImportFold_nodes_mono _ _ _ _ _ h

/-- C1 (amended): a recognized source file whose content cannot be read
is skipped non-fatally: it is the source of no edge record and of no
graph edge — but it does remain in the returned node set and among the
graph's nodes, having been added before the read was attempted. -/
theorem unreadable_file_node_but_no_edges
    (files : List (String × Option String)) (p lang : String)
    (hmem : (p, lang, (none : Option String)) ∈ sourceFilesOf files) :
    p ∈ (analyze_repository files).1.nodes ∧
    p ∈ (analyze_repository files).2.nodes ∧
    (∀ e ∈ (analyze_repository files).1.edges, e.source ≠ p) ∧
    (∀ ge ∈ (analyze_repository files).2.edges, ge.src ≠ p) := by
  have hnodup := sourceFilesOf_keys_nodup files
  have hsrc := analyzeFold_sources (sourceFilesOf files) (sourceFilesOf files)
    (fun fp h => h)
    ([], (sourceFilesOf files).foldl (fun g p => addNode g p.1) (DiGraph.mk [] []))
    (by intro e he; cases he)
    (by
      intro ge hge
      rw [foldl_addNode_edges] at hge
      cases hge)
  have hkey : ∀ q ∈ sourceFilesOf files, q.1 = p →
      q = (p, lang, (none : Option String)) := by
    intro q hq hqp
    exact List.inj_on_of_nodup_map hnodup hq hmem (by rw [hqp])
  refine ⟨?_, ?_, ?_, ?_⟩
  · show p ∈ (sourceFilesOf files).map (fun f => f.1)
    exact List.mem_map.mpr ⟨_, hmem, rfl⟩
  · show p ∈ ((sourceFilesOf files).foldl (analyzeFileStep (sourceFilesOf files))
      ([], (sourceFilesOf files).foldl (fun g p => addNode g p.1)
        (DiGraph.mk [] []))).2.nodes
    apply analyzeFold_nodes_mono
    exact foldl_addNode_mem _ _ p (Or.inr ⟨_, hmem, rfl⟩)
  · intro e he hep
    obtain ⟨q, hq, hqs, hqsome⟩ := hsrc.1 e he
    have := hkey q hq (by rw [hqs, hep])
    rw [this] at hqsome
    cases hqsome
  · intro ge hge hgp
    obtain ⟨q, hq, hqs, hqsome⟩ := hsrc.2 ge hge
    have := hkey q hq (by rw [hqs, hgp])
    rw [this] at hqsome
    cases hqsome

/-- Witness for C1 (amended) on the one-file repository whose only file
is unreadable. -/
theorem unreadable_file_node_but_no_edges_witness :
    "a.py" ∈ (analyze_repository [("a.py", none)]).1.nodes ∧
    "a.py" ∈ (analyze_repository [("a.py", none)]).2.nodes ∧
    (∀ e ∈ (analyze_repository [("a.py", none)]).1.edges, e.source ≠ "a.py") ∧
    (∀ ge ∈ (analyze_repository [("a.py", none)]).2.edges, ge.src ≠ "a.py") :=
  unreadable_file_node_but_no_edges [("a.py", none)] "a.py" "python"
    (List.Mem.head _)

/-- C1 counterexample: on a repository whose single recognized file
`a.py` is unreadable, the whole-repository scan completes and the file
is skipped for import extraction, yet the returned dependency graph
still lists `a.py` in its node set (both in the returned value and in
the analytics graph) — the claim says an unreadable file appears in
neither. -/
theorem unreadable_file_still_a_node :
    (sourceFilesOf [("a.py", none)]).map (fun f => f.2.2) = [none] ∧
    (analyze_repository [("a.py", none)]).1.nodes = ["a.py"] ∧
    (analyze_repository [("a.py", none)]).2.nodes = ["a.py"] :=
  ⟨rfl, rfl, rfl⟩


/-! ## C6: `parse_file` never raising — and the initialization gap -/

/-- C6 counterexample: `_initialize_parsers` catches only
`ImportError`; a different exception raised while building the grammar
adapters propagates out of `parse_file`, so `parse()` can raise. -/
theorem parse_file_raises_on_non_import_init_error :
    parse_file
      (ParseEnv.mk (Except.error ([], PyExc.otherError))
        (fun _ _ => Except.ok (RawNode.mk "module" "" [])))
      "def f():" "python" "f.py" = Except.error PyExc.otherError := rfl

/-- `parse_file` after a successful (or `ImportError`-recovered)
initialization. -/
theorem parse_file_eq_of_run (env : ParseEnv)
    (content language filePath : String) (regs : List String)
    (h : runInit env = Except.ok regs) :
    parse_file env content language filePath =
      (if language ∈ regs then
        match env.grammarParse language content with
        | Except.ok tree => Except.ok (extract_nodes language tree)
        | Except.error _ => Except.ok (parse_fallback content language filePath)
      else Except.ok (parse_fallback content language filePath)) := by
  unfold parse_file
  rw [h]

/-- C6 (amended): provided initialization does not raise a
non-`ImportError` exception, `parse_file` always returns a (possibly
empty) list for every content, language tag and file path: an
`ImportError` during initialization is caught, an unregistered language
is routed to the fallback extractor, and any grammar-parse failure is
caught locally and degrades to the fallback extractor. -/
theorem parse_file_total_and_degrades
    (env : ParseEnv) (content language filePath : String)
    (hinit : ∀ regs, env.initResult ≠ Except.error (regs, PyExc.otherError)) :
    (∃ l, parse_file env content language filePath = Except.ok l) ∧
    (∀ regs, runInit env = Except.ok regs → language ∈ regs →
      (∀ e, env.grammarParse language content = Except.error e →
        parse_file env content language filePath =
          Except.ok (parse_fallback content language filePath))) ∧
    (∀ regs, runInit env = Except.ok regs → language ∉ regs →
      parse_file env content language filePath =
        Except.ok (parse_fallback content language filePath)) := by
  have hrun : ∃ regs, runInit env = Except.ok regs := by
    unfold runInit
    cases henv : env.initResult with
    | ok regs => exact ⟨regs, rfl⟩
    | error pair =>
      rcases pair with ⟨regs, exc⟩
      cases exc with
      | importError => exact ⟨regs, rfl⟩
      | otherError => exact absurd henv (hinit regs)
  obtain ⟨regs, hregs⟩ := hrun
  refine ⟨?_, ?_, ?_⟩
  · by_cases hmem : language ∈ regs
    · cases hgp : env.grammarParse language content with
      | ok tree =>
        exact ⟨extract_nodes language tree, by
          rw [parse_file_eq_of_run env content language filePath regs hregs,
            if_pos hmem, hgp]⟩
      | error e =>
        exact ⟨parse_fallback content language filePath, by
          rw [parse_file_eq_of_run env content language filePath regs hregs,
            if_pos hmem, hgp]⟩
    · exact ⟨parse_fallback content language filePath, by
        rw [parse_file_eq_of_run env content language filePath regs hregs,
          if_neg hmem]⟩
  · intro regs2 hregs2 hmem e herr
    rw [hregs] at hregs2
    injection hregs2 with h2
    subst h2
    rw [parse_file_eq_of_run env content language filePath regs hregs,
      if_pos hmem, herr]
  · intro regs2 hregs2 hmem
    rw [hregs] at hregs2
    injection hregs2 with h2
    subst h2
    rw [parse_file_eq_of_run env content language filePath regs hregs,
      if_neg hmem]

/-- Witness for C6 (amended): tree-sitter import fails with
`ImportError` after registering only `python`, and the grammar parser
itself always throws — `parse_file` still returns a list. -/
theorem parse_file_total_and_degrades_witness :
    (∃ l, parse_file
      (ParseEnv.mk (Except.error (["python"], PyExc.importError))
        (fun _ _ => Except.error PyExc.otherError))
      "x = 1" "python" "f.py" = Except.ok l) ∧
    (∀ regs, runInit (ParseEnv.mk (Except.error (["python"], PyExc.importError))
        (fun _ _ => Except.error PyExc.otherError)) = Except.ok regs →
      "python" ∈ regs →
      (∀ e, (fun (_ _ : String) => Except.error (ε := PyExc) (α := RawNode)
          PyExc.otherError) "python" "x = 1" = Except.error e →
        parse_file (ParseEnv.mk (Except.error (["python"], PyExc.importError))
          (fun _ _ => Except.error PyExc.otherError)) "x = 1" "python" "f.py" =
          Except.ok (parse_fallback "x = 1" "python" "f.py"))) ∧
    (∀ regs, runInit (ParseEnv.mk (Except.error (["python"], PyExc.importError))
        (fun _ _ => Except.error PyExc.otherError)) = Except.ok regs →
      "python" ∉ regs →
      parse_file (ParseEnv.mk (Except.error (["python"], PyExc.importError))
        (fun _ _ => Except.error PyExc.otherError)) "x = 1" "python" "f.py" =
        Except.ok (parse_fallback "x = 1" "python" "f.py")) :=
  parse_file_total_and_degrades
    (ParseEnv.mk (Except.error (["python"], PyExc.importError))
      (fun _ _ => Except.error PyExc.otherError))
    "x = 1" "python" "f.py"
    (fun regs h => by
      injection h with hp
      exact PyExc.noConfusion (congrArg Prod.snd hp))


/-! ## C8: breadth-first dependency-chain levels -/

theorem chainVisit_fold_visited_mono (ps : List String)
    (acc : List String × List String) :
    ∀ z ∈ acc.2, z ∈ (ps.foldl chainVisit acc).2 := by
  induction ps generalizing acc with
  | nil => exact fun z hz => hz
  | cons d ds ih =>
    intro z hz
    rw [List.foldl_cons]
    apply ih
    unfold chainVisit
    by_cases hd : d ∈ acc.2
    · rw [if_pos hd]; exact hz
    · rw [if_neg hd]
      exact List.mem_append_left _ hz

theorem chainVisit_fold_new (ps : List String)
    (acc : List String × List String) :
    ∀ z ∈ (ps.foldl chainVisit acc).1, z ∈ acc.1 ∨ z ∉ acc.2 := by
  induction ps generalizing acc with
  | nil => exact fun z hz => Or.inl hz
  | cons d ds ih =>
    intro z hz
    rw [List.foldl_cons] at hz
    unfold chainVisit at hz
    by_cases hd : d ∈ acc.2
    · rw [if_pos hd] at hz
      exact ih acc z hz
    · rw [if_neg hd] at hz
      rcases ih _ z hz with hz1 | hz2
      · rcases List.mem_append.mp hz1 with h | h
        · exact Or.inl h
        · rw [List.mem_singleton] at h
          subst h
          exact Or.inr hd
      · refine Or.inr (fun hmem => hz2 ?_)
        exact List.mem_append_left _ hmem

theorem chainVisit_fold_sub_visited (ps : List String)
    (acc : List String × List String) (hsub : ∀ z ∈ acc.1, z ∈ acc.2) :
    ∀ z ∈ (ps.foldl chainVisit acc).1, z ∈ (ps.foldl chainVisit acc).2 := by
  induction ps generalizing acc with
  | nil => exact hsub
  | cons d ds ih =>
    rw [List.foldl_cons]
    apply ih
    unfold chainVisit
    by_cases hd : d ∈ acc.2
    · rw [if_pos hd]; exact hsub
    · rw [if_neg hd]
      intro z hz
      rcases List.mem_append.mp hz with h | h
      · exact List.mem_append_left _ (hsub z h)
      · exact List.mem_append_right _ h

theorem chainLevel_visited_mono (g : DiGraph) (current visited : List String) :
    ∀ z ∈ visited, z ∈ (chainLevel g current visited).2 := by
  unfold chainLevel
  suffices h : ∀ (cur : List String) (acc : List String × List String),
      ∀ z ∈ acc.2,
      z ∈ (cur.foldl (fun acc f => (successors g f).foldl chainVisit acc) acc).2 by
    exact h current ([], visited)
  intro cur
  induction cur with
  | nil => exact fun acc z hz => hz
  | cons f fs ih =>
    intro acc z hz
    rw [List.foldl_cons]
    exact ih _ z (chainVisit_fold_visited_mono _ acc z hz)

theorem chainLevel_new (g : DiGraph) (current visited : List String) :
    ∀ z ∈ (chainLevel g current visited).1, z ∉ visited := by
  unfold chainLevel
  suffices h : ∀ (cur : List String) (acc : List String × List String),
      ∀ z ∈ (cur.foldl (fun acc f => (successors g f).foldl chainVisit acc) acc).1,
      z ∈ acc.1 ∨ z ∉ acc.2 by
    intro z hz
    rcases h current ([], visited) z hz with h1 | h2
    · cases h1
    · exact h2
  intro cur
  induction cur with
  | nil => exact fun acc z hz => Or.inl hz
  | cons f fs ih =>
    intro acc z hz
    rw [List.foldl_cons] at hz
    rcases ih _ z hz with h1 | h2
    · rcases chainVisit_fold_new _ acc z h1 with h3 | h4
      · exact Or.inl h3
      · exact Or.inr h4
    · refine Or.inr (fun hmem => h2 ?_)
      exact chainVisit_fold_visited_mono _ acc z hmem

theorem chainLevel_sub_visited (g : DiGraph) (current visited : List String) :
    ∀ z ∈ (chainLevel g current visited).1, z ∈ (chainLevel g current visited).2 := by
  unfold chainLevel
  suffices h : ∀ (cur : List String) (acc : List String × List String),
      (∀ z ∈ acc.1, z ∈ acc.2) →
      ∀ z ∈ (cur.foldl (fun acc f => (successors g f).foldl chainVisit acc) acc).1,
      z ∈ (cur.foldl (fun acc f => (successors g f).foldl chainVisit acc) acc).2 by
    exact h current ([], visited) (fun z hz => absurd hz (List.not_mem_nil z))
  intro cur
  induction cur with
  | nil => exact fun acc h => h
  | cons f fs ih =>
    intro acc hsub
    rw [List.foldl_cons]
    exact ih _ (chainVisit_fold_sub_visited _ acc hsub)

/-- The disjointness relation between recorded levels. -/
def LevelDisj (a b : String × List String) : Prop := ∀ z ∈ a.2, z ∉ b.2

theorem chainLoop_pairwise (g : DiGraph) (fuel : Nat) :
    ∀ (depth : Nat) (current visited : List String)
      (chain : List (String × List String)),
    (∀ pair ∈ chain, ∀ z ∈ pair.2, z ∈ visited) →
    chain.Pairwise LevelDisj →
    (chainLoop g fuel depth current visited chain).Pairwise LevelDisj := by
  induction fuel with
  | zero => intro _ _ _ chain _ hpw; exact hpw
  | succ fuel ih =>
    intro depth current visited chain hvis hpw
    rw [chainLoop]
    by_cases hstep : (chainLevel g current visited).1 = []
    · rw [if_pos hstep]; exact hpw
    · rw [if_neg hstep]
      apply ih
      · intro pair hpair z hz
        rcases List.mem_append.mp hpair with h | h
        · exact chainLevel_visited_mono g current visited z (hvis pair h z hz)
        · rw [List.mem_singleton] at h
          subst h
          exact chainLevel_sub_visited g current visited z hz
      · rw [List.pairwise_append]
        refine ⟨hpw, List.pairwise_singleton _ _, ?_⟩
        intro a ha b hb
        rw [List.mem_singleton] at hb
        subst hb
        intro z hza hzb
        exact chainLevel_new g current visited z hzb (hvis a ha z hza)

/-- C8: `dependency_chain` computes successor levels keyed `level_k`
with a visited set, so no file appears in two levels; stopping is by an
empty level or by `max_depth`; and on the chain
`a.py → b.py → c.py → d.py` built by `analyze`, depth 2 returns exactly
`{level_1: [b.py], level_2: [c.py]}`, excluding `d.py`. -/
theorem dependency_chain_disjoint_levels_and_scenario
    (graph : Option DiGraph) (f : String) (maxDepth : Nat) :
    (get_dependency_chain graph f maxDepth).Pairwise LevelDisj ∧
    get_dependency_chain
      (some (analyze_repository
        [("a.py", some "import b"), ("b.py", some "import c"),
         ("c.py", some "import d"), ("d.py", some "")]).2) "a.py" 2 =
      [("level_1", ["b.py"]), ("level_2", ["c.py"])] := by
  constructor
  · cases graph with
    | none => exact List.Pairwise.nil
    | some g =>
      rw [show get_dependency_chain (some g) f maxDepth =
        (if f ∈ g.nodes then chainLoop g maxDepth 1 [f] [f] [] else [])
        from rfl]
      by_cases hmem : f ∈ g.nodes
      · rw [if_pos hmem]
        exact chainLoop_pairwise g maxDepth 1 [f] [f] []
          (fun pair hpair => absurd hpair (List.not_mem_nil pair))
          List.Pairwise.nil
      · rw [if_neg hmem]
        exact List.Pairwise.nil
  · rfl


/-! ## C2: impact analysis computes the reverse-reachable set -/

/-- One backward/forward step of the worklist: `u` is a neighbour of
`v`. -/
def stepRel (g : DiGraph) (dir : Dir) (u v : String) : Prop :=
  u ∈ dirNbrs g dir v

theorem mem_predecessors_iff (g : DiGraph) (u v : String) :
    u ∈ predecessors g v ↔ edgeRel g u v := by
  unfold predecessors edgeRel
  constructor
  · intro h
    rw [List.mem_map] at h
    obtain ⟨e, he, hee⟩ := h
    rw [List.mem_filter] at he
    refine ⟨e.imp, ?_⟩
    have htgt : e.tgt = v := by
      have := he.2
      simpa using this
    have : GEdge.mk e.src e.tgt e.imp = e := rfl
    rw [hee, htgt] at this
    rw [this]
    exact he.1
  · intro ⟨imp, hmem⟩
    rw [List.mem_map]
    refine ⟨GEdge.mk u v imp, ?_, rfl⟩
    rw [List.mem_filter]
    exact ⟨hmem, by simp⟩

theorem stepRel_bwd_iff (g : DiGraph) (u v : String) :
    stepRel g Dir.bwd u v ↔ edgeRel g u v := by
  unfold stepRel dirNbrs
  exact mem_predecessors_iff g u v

theorem closureFold_mono_aff (ps : List String)
    (acc : List String × List String) :
    ∀ z ∈ acc.1, z ∈ (closureFold ps acc).1 := by
  induction ps generalizing acc with
  | nil => exact fun z hz => hz
  | cons d ds ih =>
    intro z hz
    unfold closureFold
    rw [List.foldl_cons]
    show z ∈ (closureFold ds _).1
    by_cases hd : d ∈ acc.1
    · rw [if_pos hd]
      exact ih acc z hz
    · rw [if_neg hd]
      exact ih _ z (List.mem_append_left _ hz)

theorem closureFold_mono_stack (ps : List String)
    (acc : List String × List String) :
    ∀ z ∈ acc.2, z ∈ (closureFold ps acc).2 := by
  induction ps generalizing acc with
  | nil => exact fun z hz => hz
  | cons d ds ih =>
    intro z hz
    unfold closureFold
    rw [List.foldl_cons]
    show z ∈ (closureFold ds _).2
    by_cases hd : d ∈ acc.1
    · rw [if_pos hd]
      exact ih acc z hz
    · rw [if_neg hd]
      exact ih _ z (List.mem_cons_of_mem _ hz)

theorem closureFold_adds (ps : List String)
    (acc : List String × List String) :
    ∀ d ∈ ps, d ∈ (closureFold ps acc).1 := by
  induction ps generalizing acc with
  | nil => exact fun d hd => absurd hd (List.not_mem_nil d)
  | cons d ds ih =>
    intro x hx
    unfold closureFold
    rw [List.foldl_cons]
    show x ∈ (closureFold ds _).1
    rcases List.mem_cons.mp hx with heq | hx2
    · subst heq
      by_cases hd : x ∈ acc.1
      · rw [if_pos hd]
        exact closureFold_mono_aff ds acc x hd
      · rw [if_neg hd]
        exact closureFold_mono_aff ds _ x
          (List.mem_append_right _ (List.mem_singleton.mpr rfl))
    · by_cases hd : d ∈ acc.1
      · rw [if_pos hd]
        exact ih acc x hx2
      · rw [if_neg hd]
        exact ih _ x hx2

theorem closureFold_aff_src (ps : List String)
    (acc : List String × List String) :
    ∀ z ∈ (closureFold ps acc).1,
      z ∈ acc.1 ∨ (z ∈ ps ∧ z ∈ (closureFold ps acc).2) := by
  induction ps generalizing acc with
  | nil => exact fun z hz => Or.inl hz
  | cons d ds ih =>
    intro z hz
    unfold closureFold at hz ⊢
    rw [List.foldl_cons] at hz ⊢
    by_cases hd : d ∈ acc.1
    · rw [if_pos hd] at hz ⊢
      rcases ih acc z hz with h | ⟨h1, h2⟩
      · exact Or.inl h
      · exact Or.inr ⟨List.mem_cons_of_mem _ h1, h2⟩
    · rw [if_neg hd] at hz ⊢
      rcases ih _ z hz with h | ⟨h1, h2⟩
      · rcases List.mem_append.mp h with h3 | h3
        · exact Or.inl h3
        · rw [List.mem_singleton] at h3
          subst h3
          refine Or.inr ⟨List.mem_cons_self _ _, ?_⟩
          exact closureFold_mono_stack ds _ z (List.mem_cons_self _ _)
      · exact Or.inr ⟨List.mem_cons_of_mem _ h1, h2⟩

theorem closureFold_stack_src (ps : List String)
    (acc : List String × List String) :
    ∀ z ∈ (closureFold ps acc).2,
      z ∈ acc.2 ∨ (z ∈ ps ∧ z ∈ (closureFold ps acc).1) := by
  induction ps generalizing acc with
  | nil => exact fun z hz => Or.inl hz
  | cons d ds ih =>
    intro z hz
    unfold closureFold at hz ⊢
    rw [List.foldl_cons] at hz ⊢
    by_cases hd : d ∈ acc.1
    · rw [if_pos hd] at hz ⊢
      rcases ih acc z hz with h | ⟨h1, h2⟩
      · exact Or.inl h
      · exact Or.inr ⟨List.mem_cons_of_mem _ h1, h2⟩
    · rw [if_neg hd] at hz ⊢
      rcases ih _ z hz with h | ⟨h1, h2⟩
      · rcases List.mem_cons.mp h with h3 | h3
        · subst h3
          refine Or.inr ⟨List.mem_cons_self _ _, ?_⟩
          exact closureFold_mono_aff ds _ z
            (List.mem_append_right _ (List.mem_singleton.mpr rfl))
        · exact Or.inl h3
      · exact Or.inr ⟨List.mem_cons_of_mem _ h1, h2⟩

theorem closureFold_nodup (ps : List String)
    (acc : List String × List String) (h : acc.1.Nodup) :
    (closureFold ps acc).1.Nodup := by
  induction ps generalizing acc with
  | nil => exact h
  | cons d ds ih =>
    unfold closureFold
    rw [List.foldl_cons]
    show ((closureFold ds _)).1.Nodup
    by_cases hd : d ∈ acc.1
    · rw [if_pos hd]
      exact ih acc h
    · rw [if_neg hd]
      apply ih
      exact List.Nodup.append h (List.nodup_singleton _)
        (by
          intro x hx hx2
          rw [List.mem_singleton] at hx2
          subst hx2
          exact hd hx)

theorem closureLoop_mono (g : DiGraph) (dir : Dir) :
    ∀ (a st : List String), ∀ z ∈ a, z ∈ closureLoop g dir a st := by
  intro a st
  induction a, st using closureLoop.induct g dir with
  | case1 a =>
    intro z hz
    rw [closureLoop]
    exact hz
  | case2 a current rest ih =>
    intro z hz
    rw [closureLoop]
    exact ih z (closureFold_mono_aff _ _ z hz)

theorem closureLoop_nodup (g : DiGraph) (dir : Dir) :
    ∀ (a st : List String), a.Nodup → (closureLoop g dir a st).Nodup := by
  intro a st
  induction a, st using closureLoop.induct g dir with
  | case1 a =>
    intro h
    rw [closureLoop]
    exact h
  | case2 a current rest ih =>
    intro h
    rw [closureLoop]
    exact ih (closureFold_nodup _ _ h)


theorem closureLoop_sound (g : DiGraph) (dir : Dir) (root : String) :
    ∀ (a st : List String),
    (∀ x ∈ a, Relation.TransGen (stepRel g dir) x root) →
    (∀ x ∈ st, x = root ∨ Relation.TransGen (stepRel g dir) x root) →
    ∀ z ∈ closureLoop g dir a st, Relation.TransGen (stepRel g dir) z root := by
  intro a st
  induction a, st using closureLoop.induct g dir with
  | case1 a =>
    intro ha _ z hz
    rw [closureLoop] at hz
    exact ha z hz
  | case2 a current rest ih =>
    intro ha hst z hz
    rw [closureLoop] at hz
    have hcur : Relation.TransGen (stepRel g dir) current root ∨ current = root := by
      rcases hst current (List.mem_cons_self _ _) with h | h
      · exact Or.inr h
      · exact Or.inl h
    have hnbr : ∀ x ∈ dirNbrs g dir current,
        Relation.TransGen (stepRel g dir) x root := by
      intro x hx
      rcases hcur with h | h
      · exact Relation.TransGen.head hx h
      · rw [h] at hx
        exact Relation.TransGen.single hx
    refine ih ?_ ?_ z hz
    · intro x hx
      rcases closureFold_aff_src _ _ x hx with h | ⟨h1, _⟩
      · exact ha x h
      · exact hnbr x h1
    · intro x hx
      rcases closureFold_stack_src _ _ x hx with h | ⟨h1, _⟩
      · exact hst x (List.mem_cons_of_mem _ h)
      · exact Or.inr (hnbr x h1)

theorem closureLoop_closed (g : DiGraph) (dir : Dir) (root : String) :
    ∀ (a st : List String),
    (∀ x ∈ st, x ∈ a ∨ x = root) →
    (∀ w, (w ∈ a ∨ w = root) → w ∈ st ∨ ∀ d ∈ dirNbrs g dir w, d ∈ a) →
    ∀ w, (w ∈ closureLoop g dir a st ∨ w = root) →
      ∀ d ∈ dirNbrs g dir w, d ∈ closureLoop g dir a st := by
  intro a st
  induction a, st using closureLoop.induct g dir with
  | case1 a =>
    intro _ hcl w hw d hd
    rw [closureLoop] at hw ⊢
    rcases hcl w hw with h | h
    · cases h
    · exact h d hd
  | case2 a current rest ih =>
    intro hst hcl w hw d hd
    rw [closureLoop] at hw ⊢
    refine ih ?_ ?_ w hw d hd
    · -- new stack entries are collected or the root
      intro x hx
      rcases closureFold_stack_src _ _ x hx with h | ⟨_, h2⟩
      · rcases hst x (List.mem_cons_of_mem _ h) with h3 | h3
        · exact Or.inl (closureFold_mono_aff _ _ x h3)
        · exact Or.inr h3
      · exact Or.inl h2
    · -- every collected node is pending or fully expanded
      intro y hy
      have hmain : y ∈ a ∨ y ∈ (closureFold (dirNbrs g dir current) (a, rest)).2 ∨
          y = root := by
        rcases hy with h | h
        · rcases closureFold_aff_src _ _ y h with h1 | ⟨_, h2⟩
          · exact Or.inl h1
          · exact Or.inr (Or.inl h2)
        · exact Or.inr (Or.inr h)
      rcases hmain with hya | hyS | hyroot
      · rcases hcl y (Or.inl hya) with h3 | h3
        · rcases List.mem_cons.mp h3 with h4 | h4
          · subst h4
            exact Or.inr (fun e he => closureFold_adds _ _ e he)
          · exact Or.inl (closureFold_mono_stack _ _ y h4)
        · exact Or.inr (fun e he => closureFold_mono_aff _ _ e (h3 e he))
      · exact Or.inl hyS
      · rcases hcl y (Or.inr hyroot) with h3 | h3
        · rcases List.mem_cons.mp h3 with h4 | h4
          · subst h4
            exact Or.inr (fun e he => closureFold_adds _ _ e he)
          · exact Or.inl (closureFold_mono_stack _ _ y h4)
        · exact Or.inr (fun e he => closureFold_mono_aff _ _ e (h3 e he))

/-- The worklist from a single root computes exactly the set of nodes
with a non-empty chain of `stepRel` steps to the root. -/
theorem mem_closureLoop_iff (g : DiGraph) (dir : Dir) (root z : String) :
    z ∈ closureLoop g dir [] [root] ↔
      Relation.TransGen (stepRel g dir) z root := by
  constructor
  · intro hz
    refine closureLoop_sound g dir root [] [root] ?_ ?_ z hz
    · intro x hx; cases hx
    · intro x hx
      rw [List.mem_singleton] at hx
      exact Or.inl hx
  · intro htg
    have hclosed := closureLoop_closed g dir root [] [root]
      (by
        intro x hx
        rw [List.mem_singleton] at hx
        exact Or.inr hx)
      (by
        intro w hw
        rcases hw with h | h
        · cases h
        · exact Or.inl (by rw [h]; exact List.mem_singleton.mpr rfl))
    induction htg using Relation.TransGen.head_induction_on with
    | base h => exact hclosed root (Or.inr rfl) _ h
    | ih h1 _ ih2 => exact hclosed _ (Or.inl ih2) _ h1


theorem addEdge_edges_eq (g : DiGraph) (u v i : String) :
    (addEdge g u v i).edges =
      (if g.edges.any (fun e => e.src == u && e.tgt == v) then
        g.edges.map (fun e => if e.src = u ∧ e.tgt = v then GEdge.mk u v i else e)
      else g.edges ++ [GEdge.mk u v i]) := by
  unfold addEdge
  dsimp only
  rw [show (addNode (addNode g u) v).edges = g.edges from by
    rw [addNode_edges, addNode_edges]]
  split <;> rfl

theorem edgeRel_addEdge_mono (g : DiGraph) (u v i a b : String)
    (h : edgeRel g a b) : edgeRel (addEdge g u v i) a b := by
  obtain ⟨imp0, hmem⟩ := h
  unfold edgeRel
  rw [addEdge_edges_eq]
  split
  · by_cases hab : a = u ∧ b = v
    · refine ⟨i, ?_⟩
      have himg := List.mem_map_of_mem
        (fun e => if e.src = u ∧ e.tgt = v then GEdge.mk u v i else e) hmem
      dsimp only at himg
      rw [if_pos (show a = u ∧ b = v from hab)] at himg
      rw [hab.1, hab.2]
      exact himg
    · refine ⟨imp0, ?_⟩
      have himg := List.mem_map_of_mem
        (fun e => if e.src = u ∧ e.tgt = v then GEdge.mk u v i else e) hmem
      dsimp only at himg
      rw [if_neg (show ¬(a = u ∧ b = v) from hab)] at himg
      exact himg
  · exact ⟨imp0, List.mem_append_left _ hmem⟩

theorem addEdge_self_edgeRel (g : DiGraph) (u v i : String) :
    edgeRel (addEdge g u v i) u v := by
  unfold edgeRel
  rw [addEdge_edges_eq]
  split
  · next hany =>
    rw [List.any_eq_true] at hany
    obtain ⟨e, he, hee⟩ := hany
    rw [Bool.and_eq_true, beq_iff_eq, beq_iff_eq] at hee
    refine ⟨i, ?_⟩
    have himg := List.mem_map_of_mem
      (fun e => if e.src = u ∧ e.tgt = v then GEdge.mk u v i else e) he
    dsimp only at himg
    rw [if_pos hee] at himg
    exact himg
  · exact ⟨i, List.mem_append_right _ (List.mem_singleton.mpr rfl)⟩

/-- C2: `impact(file).total_affected` is the cardinality of the set of
nodes that reach `file` through a non-empty chain of reversed edges;
adding an edge `X → file` never shrinks that set and always puts `X`
into it (and never decreases the reported total); the `affected_files`
preview holds at most 20 entries while `total_affected` stays the true
count. -/
theorem impact_counts_reverse_reachable
    (g : DiGraph) (file X imp : String) (hfile : file ∈ g.nodes) :
    (get_impact_analysis (some g) file).totalAffected =
      {z | Relation.TransGen (edgeRel g) z file}.ncard ∧
    {z | Relation.TransGen (edgeRel g) z file} ⊆
      {z | Relation.TransGen (edgeRel (addEdge g X file imp)) z file} ∧
    X ∈ {z | Relation.TransGen (edgeRel (addEdge g X file imp)) z file} ∧
    (get_impact_analysis (some (addEdge g X file imp)) file).totalAffected ≥
      (get_impact_analysis (some g) file).totalAffected ∧
    (get_impact_analysis (some g) file).affectedFiles.length ≤ 20 := by
  have key : ∀ (g2 : DiGraph), file ∈ g2.nodes →
      ((get_impact_analysis (some g2) file).totalAffected =
        {z | Relation.TransGen (edgeRel g2) z file}.ncard ∧
      {z | Relation.TransGen (edgeRel g2) z file} =
        {z | z ∈ impactAffected g2 file}) := by
    intro g2 hf2
    have hset : {z | Relation.TransGen (edgeRel g2) z file} =
        {z | z ∈ impactAffected g2 file} := by
      ext z
      rw [Set.mem_setOf_eq, Set.mem_setOf_eq, impactAffected,
        mem_closureLoop_iff]
      constructor
      · exact Relation.TransGen.mono
          (fun a b hab => (stepRel_bwd_iff g2 a b).mpr hab)
      · exact Relation.TransGen.mono
          (fun a b hab => (stepRel_bwd_iff g2 a b).mp hab)
    have htot : (get_impact_analysis (some g2) file).totalAffected =
        (impactAffected g2 file).length := by
      rw [show get_impact_analysis (some g2) file = (if file ∈ g2.nodes then
          ImpactResult.ok file (predecessors g2 file)
            (impactAffected g2 file).length
            ((impactAffected g2 file).take 20)
        else ImpactResult.error "File not in graph") from rfl, if_pos hf2]
      rfl
    have hlen : {z | z ∈ impactAffected g2 file}.ncard =
        (impactAffected g2 file).length := by
      have hnd : (impactAffected g2 file).Nodup :=
        closureLoop_nodup g2 Dir.bwd [] [file] List.nodup_nil
      rw [show {z | z ∈ impactAffected g2 file} =
        ((impactAffected g2 file).toFinset : Set String) from by
          ext z; simp]
      rw [Set.ncard_coe_Finset]
      exact List.toFinset_card_of_nodup hnd
    exact ⟨by rw [htot, hset, hlen], hset⟩
  obtain ⟨h1, hset1⟩ := key g hfile
  have hfile2 : file ∈ (addEdge g X file imp).nodes :=
    mem_addEdge_nodes_of g X file imp file hfile
  obtain ⟨h2, hset2⟩ := key (addEdge g X file imp) hfile2
  have hmono : {z | Relation.TransGen (edgeRel g) z file} ⊆
      {z | Relation.TransGen (edgeRel (addEdge g X file imp)) z file} :=
    fun z hz => Relation.TransGen.mono
      (fun a b hab => edgeRel_addEdge_mono g X file imp a b hab) hz
  refine ⟨h1, hmono, ?_, ?_, ?_⟩
  · exact Relation.TransGen.single (addEdge_self_edgeRel g X file imp)
  · rw [ge_iff_le, h1, h2]
    refine Set.ncard_le_ncard hmono ?_
    rw [hset2]
    exact (impactAffected (addEdge g X file imp) file).finite_toSet
  · rw [show get_impact_analysis (some g) file = (if file ∈ g.nodes then
        ImpactResult.ok file (predecessors g file)
          (impactAffected g file).length
          ((impactAffected g file).take 20)
      else ImpactResult.error "File not in graph") from rfl, if_pos hfile]
    exact List.length_take_le 20 _

/-- Witness for C2 on the graph with the single edge
`b.py → a.py`. -/
theorem impact_counts_reverse_reachable_witness :
    (get_impact_analysis
      (some (DiGraph.mk ["a.py", "b.py"] [GEdge.mk "b.py" "a.py" "a"]))
      "a.py").totalAffected =
      {z | Relation.TransGen
        (edgeRel (DiGraph.mk ["a.py", "b.py"] [GEdge.mk "b.py" "a.py" "a"]))
        z "a.py"}.ncard ∧
    {z | Relation.TransGen
        (edgeRel (DiGraph.mk ["a.py", "b.py"] [GEdge.mk "b.py" "a.py" "a"]))
        z "a.py"} ⊆
      {z | Relation.TransGen (edgeRel (addEdge
        (DiGraph.mk ["a.py", "b.py"] [GEdge.mk "b.py" "a.py" "a"])
        "x.py" "a.py" "a")) z "a.py"} ∧
    "x.py" ∈ {z | Relation.TransGen (edgeRel (addEdge
        (DiGraph.mk ["a.py", "b.py"] [GEdge.mk "b.py" "a.py" "a"])
        "x.py" "a.py" "a")) z "a.py"} ∧
    (get_impact_analysis (some (addEdge
        (DiGraph.mk ["a.py", "b.py"] [GEdge.mk "b.py" "a.py" "a"])
        "x.py" "a.py" "a")) "a.py").totalAffected ≥
      (get_impact_analysis
        (some (DiGraph.mk ["a.py", "b.py"] [GEdge.mk "b.py" "a.py" "a"]))
        "a.py").totalAffected ∧
    (get_impact_analysis
      (some (DiGraph.mk ["a.py", "b.py"] [GEdge.mk "b.py" "a.py" "a"]))
      "a.py").affectedFiles.length ≤ 20 :=
  impact_counts_reverse_reachable
    (DiGraph.mk ["a.py", "b.py"] [GEdge.mk "b.py" "a.py" "a"])
    "a.py" "x.py" "a" (by decide)


/-! ## C10: external imports never enter the analytics graph -/

/-- A successful resolution always lands on a known repository file. -/
theorem resolve_import_mem (importName sourceFile : String)
    (sfs : List SourceFile) (language : String) (r : String)
    (h : resolve_import importName sourceFile sfs language = some r) :
    r ∈ sfs.map (fun f => f.1) := by
  unfold resolve_import at h
  dsimp only at h
  by_cases hpy : language = "python"
  · rw [if_pos hpy] at h
    by_cases c1 : (strReplaceChar importName '.' '/' ++ ".py") ∈
        sfs.map (fun f => f.1)
    · rw [if_pos c1] at h
      injection h with h2
      rw [← h2]
      exact c1
    · rw [if_neg c1] at h
      by_cases c2 : (strReplaceChar importName '.' '/' ++ "/__init__.py") ∈
          sfs.map (fun f => f.1)
      · rw [if_pos c2] at h
        injection h with h2
        rw [← h2]
        exact c2
      · rw [if_neg c2] at h
        by_cases c3 : (posixJoin (posixDirname sourceFile)
            (strReplaceChar importName '.' '/') ++ ".py") ∈
            sfs.map (fun f => f.1)
        · rw [if_pos c3] at h
          injection h with h2
          rw [← h2]
          exact c3
        · rw [if_neg c3] at h
          by_cases c4 : (posixJoin (posixDirname sourceFile)
              (strReplaceChar importName '.' '/') ++ "/__init__.py") ∈
              sfs.map (fun f => f.1)
          · rw [if_pos c4] at h
            injection h with h2
            rw [← h2]
            exact c4
          · rw [if_neg c4] at h
            cases h
  · rw [if_neg hpy] at h
    by_cases hjs : language = "javascript" ∨ language = "typescript"
    · rw [if_pos hjs] at h
      by_cases hrel : strStartsWith importName "." = true
      · rw [if_pos hrel] at h
        have hp := List.find?_some h
        simpa using hp
      · rw [if_neg hrel] at h
        cases h
    · rw [if_neg hjs] at h
      cases h

theorem addNode_of_mem (g : DiGraph) (n : String) (h : n ∈ g.nodes) :
    addNode g n = g := by
  unfold addNode
  rw [if_pos h]

theorem addEdge_nodes_of_mem (g : DiGraph) (u v i : String)
    (hu : u ∈ g.nodes) (hv : v ∈ g.nodes) :
    (addEdge g u v i).nodes = g.nodes := by
  rw [addEdge_nodes, addNode_of_mem g u hu, addNode_of_mem g v hv]

theorem analyzeImportFold_nodes_const (sfs : List SourceFile)
    (fp : SourceFile) (hfp : fp.1 ∈ sfs.map (fun f => f.1))
    (imports : List String) :
    ∀ (acc : List DependencyEdge × DiGraph),
    acc.2.nodes = sfs.map (fun f => f.1) →
    (imports.foldl (analyzeImportStep sfs fp) acc).2.nodes =
      sfs.map (fun f => f.1) := by
  induction imports with
  | nil => exact fun acc h => h
  | cons imp imps ih =>
    intro acc hacc
    rw [List.foldl_cons]
    apply ih
    unfold analyzeImportStep
    cases hres : resolve_import imp fp.1 sfs fp.2.1 with
    | some resolved =>
      show (addEdge acc.2 fp.1 resolved imp).nodes = _
      rw [addEdge_nodes_of_mem acc.2 fp.1 resolved imp
        (by rw [hacc]; exact hfp)
        (by rw [hacc]; exact resolve_import_mem imp fp.1 sfs fp.2.1 resolved hres)]
      exact hacc
    | none => exact hacc

theorem analyzeFold_nodes_const (sfs : List SourceFile)
    (fps : List SourceFile) (hfps : ∀ fp ∈ fps, fp.1 ∈ sfs.map (fun f => f.1)) :
    ∀ (acc : List DependencyEdge × DiGraph),
    acc.2.nodes = sfs.map (fun f => f.1) →
    (fps.foldl (analyzeFileStep sfs) acc).2.nodes = sfs.map (fun f => f.1) := by
  induction fps with
  | nil => exact fun acc h => h
  | cons fp fps ih =>
    intro acc hacc
    rw [List.foldl_cons]
    apply ih (fun q hq => hfps q (List.mem_cons_of_mem _ hq))
    unfold analyzeFileStep
    cases fp.2.2 with
    | none => exact hacc
    | some content =>
      exact analyzeImportFold_nodes_const sfs fp
        (hfps fp (List.mem_cons_self _ _)) _ acc hacc

theorem foldl_addNode_nodes (fps : List SourceFile) :
    ∀ (g : DiGraph), (g.nodes ++ fps.map (fun f => f.1)).Nodup →
    (fps.foldl (fun g p => addNode g p.1) g).nodes =
      g.nodes ++ fps.map (fun f => f.1) := by
  induction fps with
  | nil =>
    intro g _
    simp
  | cons fp fps ih =>
    intro g hnd
    have hnotin : fp.1 ∉ g.nodes := by
      rcases List.nodup_append.mp hnd with ⟨_, _, hdisj⟩
      intro hmem
      exact hdisj hmem (List.mem_cons_self _ _)
    rw [List.foldl_cons]
    have haddn : (addNode g fp.1) = DiGraph.mk (g.nodes ++ [fp.1]) g.edges := by
      unfold addNode
      rw [if_neg hnotin]
    rw [haddn]
    have := ih (DiGraph.mk (g.nodes ++ [fp.1]) g.edges)
      (by
        show ((g.nodes ++ [fp.1]) ++ fps.map (fun f => f.1)).Nodup
        rw [← List.append_cons]
        exact hnd)
    rw [this]
    show (g.nodes ++ [fp.1]) ++ fps.map (fun f => f.1) = _
    rw [← List.append_cons]
    rfl

/-- `analyze_repository` with its `let` chain reduced (definitional). -/
theorem analyze_repository_eq (files : List (String × Option String)) :
    analyze_repository files =
      (DependencyGraph.mk ((sourceFilesOf files).map (fun f => f.1))
        ((sourceFilesOf files).foldl (analyzeFileStep (sourceFilesOf files))
          ([], (sourceFilesOf files).foldl (fun g p => addNode g p.1)
            (DiGraph.mk [] []))).1,
       ((sourceFilesOf files).foldl (analyzeFileStep (sourceFilesOf files))
          ([], (sourceFilesOf files).foldl (fun g p => addNode g p.1)
            (DiGraph.mk [] []))).2) := rfl

/-- The nodes of the analytics graph are exactly the recognized source
files, in dict order. -/
theorem analyze_graph_nodes (files : List (String × Option String)) :
    (analyze_repository files).2.nodes =
      (sourceFilesOf files).map (fun f => f.1) := by
  show ((sourceFilesOf files).foldl (analyzeFileStep (sourceFilesOf files))
    ([], (sourceFilesOf files).foldl (fun g p => addNode g p.1)
      (DiGraph.mk [] []))).2.nodes = _
  apply analyzeFold_nodes_const
  · exact fun fp hfp => List.mem_map_of_mem (fun f => f.1) hfp
  · show ((sourceFilesOf files).foldl (fun g p => addNode g p.1)
      (DiGraph.mk [] [])).nodes = _
    rw [foldl_addNode_nodes (sourceFilesOf files) (DiGraph.mk [] [])
      (by
        show (([] : List String) ++ _).Nodup
        rw [List.nil_append]
        exact sourceFilesOf_keys_nodup files)]
    rw [List.nil_append]


/-- Fold invariant: every graph edge has endpoints among the known
files and is witnessed by a non-external edge record. -/
theorem analyzeImportFold_edges_inv (sfs : List SourceFile)
    (fp : SourceFile) (hfp : fp.1 ∈ sfs.map (fun f => f.1))
    (imports : List String) :
    ∀ (acc : List DependencyEdge × DiGraph),
    (∀ ge ∈ acc.2.edges, ge.src ∈ sfs.map (fun f => f.1) ∧
      ge.tgt ∈ sfs.map (fun f => f.1) ∧
      ∃ e ∈ acc.1, e.is_external = false ∧ e.source = ge.src ∧
        e.target = ge.tgt) →
    ∀ ge ∈ (imports.foldl (analyzeImportStep sfs fp) acc).2.edges,
      ge.src ∈ sfs.map (fun f => f.1) ∧ ge.tgt ∈ sfs.map (fun f => f.1) ∧
      ∃ e ∈ (imports.foldl (analyzeImportStep sfs fp) acc).1,
        e.is_external = false ∧ e.source = ge.src ∧ e.target = ge.tgt := by
  induction imports with
  | nil => exact fun acc h => h
  | cons imp imps ih =>
    intro acc hinv
    rw [List.foldl_cons]
    apply ih
    intro ge hge
    unfold analyzeImportStep at hge ⊢
    cases hres : resolve_import imp fp.1 sfs fp.2.1 with
    | some resolved =>
      rw [hres] at hge
      rcases mem_addEdge_edges acc.2 fp.1 resolved imp ge hge with ⟨h1, h2⟩ | hold
      · refine ⟨by rw [h1]; exact hfp,
          by rw [h2]; exact resolve_import_mem imp fp.1 sfs fp.2.1 resolved hres,
          DependencyEdge.mk fp.1 resolved imp false, ?_, rfl, h1.symm, h2.symm⟩
        exact List.mem_append_right _ (List.mem_singleton.mpr rfl)
      · obtain ⟨hs, ht, e, he, hext, he1, he2⟩ := hinv ge hold
        exact ⟨hs, ht, e, List.mem_append_left _ he, hext, he1, he2⟩
    | none =>
      rw [hres] at hge
      obtain ⟨hs, ht, e, he, hext, he1, he2⟩ := hinv ge hge
      exact ⟨hs, ht, e, List.mem_append_left _ he, hext, he1, he2⟩

theorem analyzeFold_edges_inv (sfs : List SourceFile)
    (fps : List SourceFile) (hfps : ∀ fp ∈ fps, fp.1 ∈ sfs.map (fun f => f.1)) :
    ∀ (acc : List DependencyEdge × DiGraph),
    (∀ ge ∈ acc.2.edges, ge.src ∈ sfs.map (fun f => f.1) ∧
      ge.tgt ∈ sfs.map (fun f => f.1) ∧
      ∃ e ∈ acc.1, e.is_external = false ∧ e.source = ge.src ∧
        e.target = ge.tgt) →
    ∀ ge ∈ (fps.foldl (analyzeFileStep sfs) acc).2.edges,
      ge.src ∈ sfs.map (fun f => f.1) ∧ ge.tgt ∈ sfs.map (fun f => f.1) ∧
      ∃ e ∈ (fps.foldl (analyzeFileStep sfs) acc).1,
        e.is_external = false ∧ e.source = ge.src ∧ e.target = ge.tgt := by
  induction fps with
  | nil => exact fun acc h => h
  | cons fp fps ih =>
    intro acc hinv
    rw [List.foldl_cons]
    apply ih (fun q hq => hfps q (List.mem_cons_of_mem _ hq))
    unfold analyzeFileStep
    cases fp.2.2 with
    | none => exact hinv
    | some content =>
      exact analyzeImportFold_edges_inv sfs fp
        (hfps fp (List.mem_cons_self _ _)) _ acc hinv

theorem mem_successors_endpoint (g : DiGraph) (f x : String)
    (hx : x ∈ successors g f) : ∃ ge ∈ g.edges, ge.src = f ∧ ge.tgt = x := by
  unfold successors at hx
  rw [List.mem_map] at hx
  obtain ⟨e, he, hee⟩ := hx
  rw [List.mem_filter] at he
  exact ⟨e, he.1, by simpa using he.2, hee⟩

theorem mem_predecessors_endpoint (g : DiGraph) (f x : String)
    (hx : x ∈ predecessors g f) : ∃ ge ∈ g.edges, ge.tgt = f ∧ ge.src = x := by
  unfold predecessors at hx
  rw [List.mem_map] at hx
  obtain ⟨e, he, hee⟩ := hx
  rw [List.mem_filter] at he
  exact ⟨e, he.1, by simpa using he.2, hee⟩

/-- Members of a level fold come from the accumulator or the scanned
successor list. -/
theorem chainVisit_fold_src (ps : List String)
    (acc : List String × List String) :
    ∀ z ∈ (ps.foldl chainVisit acc).1, z ∈ acc.1 ∨ z ∈ ps := by
  induction ps generalizing acc with
  | nil => exact fun z hz => Or.inl hz
  | cons d ds ih =>
    intro z hz
    rw [List.foldl_cons] at hz
    unfold chainVisit at hz
    by_cases hd : d ∈ acc.2
    · rw [if_pos hd] at hz
      rcases ih acc z hz with h | h
      · exact Or.inl h
      · exact Or.inr (List.mem_cons_of_mem _ h)
    · rw [if_neg hd] at hz
      rcases ih _ z hz with h | h
      · rcases List.mem_append.mp h with h2 | h2
        · exact Or.inl h2
        · rw [List.mem_singleton] at h2
          subst h2
          exact Or.inr (List.mem_cons_self _ _)
      · exact Or.inr (List.mem_cons_of_mem _ h)

theorem chainLevel_src (g : DiGraph) (current visited : List String) :
    ∀ z ∈ (chainLevel g current visited).1,
      ∃ f, z ∈ successors g f := by
  unfold chainLevel
  suffices h : ∀ (cur : List String) (acc : List String × List String),
      ∀ z ∈ (cur.foldl (fun acc f => (successors g f).foldl chainVisit acc) acc).1,
      z ∈ acc.1 ∨ ∃ f, z ∈ successors g f by
    intro z hz
    rcases h current ([], visited) z hz with h1 | h1
    · cases h1
    · exact h1
  intro cur
  induction cur with
  | nil => exact fun acc z hz => Or.inl hz
  | cons f fs ih =>
    intro acc z hz
    rw [List.foldl_cons] at hz
    rcases ih _ z hz with h1 | h1
    · rcases chainVisit_fold_src _ acc z h1 with h2 | h2
      · exact Or.inl h2
      · exact Or.inr ⟨f, h2⟩
    · exact Or.inr h1

theorem chainLoop_levels_in_nodes (g : DiGraph)
    (hclosed : ∀ ge ∈ g.edges, ge.tgt ∈ g.nodes) (fuel : Nat) :
    ∀ (depth : Nat) (current visited : List String)
      (chain : List (String × List String)),
    (∀ pair ∈ chain, ∀ z ∈ pair.2, z ∈ g.nodes) →
    ∀ pair ∈ chainLoop g fuel depth current visited chain,
      ∀ z ∈ pair.2, z ∈ g.nodes := by
  induction fuel with
  | zero => intro _ _ _ chain h; exact h
  | succ fuel ih =>
    intro depth current visited chain hch
    rw [chainLoop]
    by_cases hstep : (chainLevel g current visited).1 = []
    · rw [if_pos hstep]; exact hch
    · rw [if_neg hstep]
      apply ih
      intro pair hpair z hz
      rcases List.mem_append.mp hpair with h | h
      · exact hch pair h z hz
      · rw [List.mem_singleton] at h
        subst h
        obtain ⟨f, hzf⟩ := chainLevel_src g current visited z hz
        obtain ⟨ge, hge, _, hgt⟩ := mem_successors_endpoint g f z hzf
        rw [← hgt]
        exact hclosed ge hge

theorem closureLoop_src (g : DiGraph) (dir : Dir) :
    ∀ (a st : List String), ∀ z ∈ closureLoop g dir a st,
      z ∈ a ∨ ∃ y, z ∈ dirNbrs g dir y := by
  intro a st
  induction a, st using closureLoop.induct g dir with
  | case1 a =>
    intro z hz
    rw [closureLoop] at hz
    exact Or.inl hz
  | case2 a current rest ih =>
    intro z hz
    rw [closureLoop] at hz
    rcases ih z hz with h | h
    · rcases closureFold_aff_src _ _ z h with h2 | ⟨h2, _⟩
      · exact Or.inl h2
      · exact Or.inr ⟨current, h2⟩
    · exact Or.inr h


/-- C10: the analytics graph's node set is exactly the recognized
repository source files; every graph edge joins two such files and
stems from a resolved (non-external) edge record — an unresolved
specifier contributes only an `is_external` record, no node and no
edge; consequently the four per-file query operations only ever return
repository file paths (members of the node set). -/
theorem external_imports_never_enter_graph
    (files : List (String × Option String)) :
    (analyze_repository files).2.nodes =
      (sourceFilesOf files).map (fun f => f.1) ∧
    (∀ ge ∈ (analyze_repository files).2.edges,
      ge.src ∈ (analyze_repository files).2.nodes ∧
      ge.tgt ∈ (analyze_repository files).2.nodes) ∧
    (∀ ge ∈ (analyze_repository files).2.edges,
      ∃ e ∈ (analyze_repository files).1.edges,
        e.is_external = false ∧ e.source = ge.src ∧ e.target = ge.tgt) ∧
    (∀ f x, x ∈ get_file_dependencies (some (analyze_repository files).2) f →
      x ∈ (analyze_repository files).2.nodes) ∧
    (∀ f x, x ∈ get_file_dependents (some (analyze_repository files).2) f →
      x ∈ (analyze_repository files).2.nodes) ∧
    (∀ f d k lvl,
      (k, lvl) ∈ get_dependency_chain (some (analyze_repository files).2) f d →
      ∀ x ∈ lvl, x ∈ (analyze_repository files).2.nodes) ∧
    (∀ f x,
      x ∈ (get_impact_analysis (some (analyze_repository files).2) f).directDependents →
      x ∈ (analyze_repository files).2.nodes) ∧
    (∀ f x,
      x ∈ (get_impact_analysis (some (analyze_repository files).2) f).affectedFiles →
      x ∈ (analyze_repository files).2.nodes) := by
  have hnodes := analyze_graph_nodes files
  have hinv : ∀ ge ∈ (analyze_repository files).2.edges,
      ge.src ∈ (sourceFilesOf files).map (fun f => f.1) ∧
      ge.tgt ∈ (sourceFilesOf files).map (fun f => f.1) ∧
      ∃ e ∈ (analyze_repository files).1.edges,
        e.is_external = false ∧ e.source = ge.src ∧ e.target = ge.tgt := by
    intro ge hge
    rw [analyze_repository_eq files] at hge ⊢
    refine analyzeFold_edges_inv (sourceFilesOf files) (sourceFilesOf files)
      (fun fp hfp => List.mem_map_of_mem (fun f => f.1) hfp)
      ([], (sourceFilesOf files).foldl (fun g p => addNode g p.1)
        (DiGraph.mk [] []))
      ?_ ge hge
    intro ge2 hge2
    rw [foldl_addNode_edges] at hge2
    cases hge2
  have hsrc : ∀ ge ∈ (analyze_repository files).2.edges,
      ge.src ∈ (analyze_repository files).2.nodes := by
    intro ge hge
    rw [hnodes]
    exact (hinv ge hge).1
  have htgt : ∀ ge ∈ (analyze_repository files).2.edges,
      ge.tgt ∈ (analyze_repository files).2.nodes := by
    intro ge hge
    rw [hnodes]
    exact (hinv ge hge).2.1
  refine ⟨hnodes, fun ge hge => ⟨hsrc ge hge, htgt ge hge⟩,
    fun ge hge => (hinv ge hge).2.2, ?_, ?_, ?_, ?_, ?_⟩
  · -- dependencies are successor targets
    intro f x hx
    rw [show get_file_dependencies (some (analyze_repository files).2) f =
      (if f ∈ (analyze_repository files).2.nodes then
        successors (analyze_repository files).2 f else []) from rfl] at hx
    split at hx
    · obtain ⟨ge, hge, _, hgt⟩ :=
        mem_successors_endpoint (analyze_repository files).2 f x hx
      rw [← hgt]
      exact htgt ge hge
    · cases hx
  · -- dependents are predecessor sources
    intro f x hx
    rw [show get_file_dependents (some (analyze_repository files).2) f =
      (if f ∈ (analyze_repository files).2.nodes then
        predecessors (analyze_repository files).2 f else []) from rfl] at hx
    split at hx
    · obtain ⟨ge, hge, _, hgs⟩ :=
        mem_predecessors_endpoint (analyze_repository files).2 f x hx
      rw [← hgs]
      exact hsrc ge hge
    · cases hx
  · -- chain levels stay inside the node set
    intro f d k lvl hpair x hx
    rw [show get_dependency_chain (some (analyze_repository files).2) f d =
      (if f ∈ (analyze_repository files).2.nodes then
        chainLoop (analyze_repository files).2 d 1 [f] [f] [] else [])
      from rfl] at hpair
    split at hpair
    · exact chainLoop_levels_in_nodes (analyze_repository files).2 htgt d 1
        [f] [f] [] (fun pair hp => absurd hp (List.not_mem_nil pair))
        (k, lvl) hpair x hx
    · cases hpair
  · -- direct dependents of the impact report
    intro f x hx
    rw [show get_impact_analysis (some (analyze_repository files).2) f =
      (if f ∈ (analyze_repository files).2.nodes then
        ImpactResult.ok f (predecessors (analyze_repository files).2 f)
          (impactAffected (analyze_repository files).2 f).length
          ((impactAffected (analyze_repository files).2 f).take 20)
      else ImpactResult.error "File not in graph") from rfl] at hx
    split at hx
    · show x ∈ (analyze_repository files).2.nodes
      obtain ⟨ge, hge, _, hgs⟩ := mem_predecessors_endpoint
        (analyze_repository files).2 f x hx
      rw [← hgs]
      exact hsrc ge hge
    · cases hx
  · -- affected-file preview
    intro f x hx
    rw [show get_impact_analysis (some (analyze_repository files).2) f =
      (if f ∈ (analyze_repository files).2.nodes then
        ImpactResult.ok f (predecessors (analyze_repository files).2 f)
          (impactAffected (analyze_repository files).2 f).length
          ((impactAffected (analyze_repository files).2 f).take 20)
      else ImpactResult.error "File not in graph") from rfl] at hx
    split at hx
    · show x ∈ (analyze_repository files).2.nodes
      have hx2 : x ∈ impactAffected (analyze_repository files).2 f :=
        List.mem_of_mem_take hx
      rcases closureLoop_src (analyze_repository files).2 Dir.bwd [] [f] x hx2
        with h | ⟨y, hy⟩
      · cases h
      · obtain ⟨ge, hge, _, hgs⟩ := mem_predecessors_endpoint
          (analyze_repository files).2 y x hy
        rw [← hgs]
        exact hsrc ge hge
    · cases hx

/-- Witness for C10 on a two-file repository with one resolved and one
external import. -/
theorem external_imports_never_enter_graph_witness :
    (analyze_repository [("a.py", some "import b\nimport requests"),
        ("b.py", some "")]).2.nodes =
      (sourceFilesOf [("a.py", some "import b\nimport requests"),
        ("b.py", some "")]).map (fun f => f.1) ∧
    "b.py" ∈ (analyze_repository [("a.py", some "import b\nimport requests"),
        ("b.py", some "")]).2.nodes :=
  ⟨(external_imports_never_enter_graph
      [("a.py", some "import b\nimport requests"), ("b.py", some "")]).1,
    (external_imports_never_enter_graph
      [("a.py", some "import b\nimport requests"), ("b.py", some "")]).2.2.2.1
      "a.py" "b.py" (by decide)⟩


/-! ## C7: mutual imports, cycle enumeration, the 10-cycle cap -/

theorem mem_successors_iff (g : DiGraph) (u v : String) :
    u ∈ successors g v ↔ edgeRel g v u := by
  unfold successors edgeRel
  constructor
  · intro h
    rw [List.mem_map] at h
    obtain ⟨e, he, hee⟩ := h
    rw [List.mem_filter] at he
    refine ⟨e.imp, ?_⟩
    have hsrc : e.src = v := by simpa using he.2
    have : GEdge.mk e.src e.tgt e.imp = e := rfl
    rw [hee, hsrc] at this
    rw [this]
    exact he.1
  · intro ⟨imp, hmem⟩
    rw [List.mem_map]
    refine ⟨GEdge.mk v u imp, ?_, rfl⟩
    rw [List.mem_filter]
    exact ⟨hmem, by simp⟩

/-- A left fold whose step only appends is the concatenation of the
per-element contributions. -/
theorem foldl_append_eq {α β : Type} (c : α → List β)
    (step : List β → α → List β)
    (hstep : ∀ acc x, step acc x = acc ++ c x) :
    ∀ (l : List α) (acc : List β), l.foldl step acc = acc ++ l.bind c := by
  intro l
  induction l with
  | nil => intro acc; simp
  | cons d ds ih =>
    intro acc
    rw [List.foldl_cons, hstep, ih, List.append_assoc]
    simp

theorem cyclesDFS_eq_bind (g : DiGraph) (start : String) (i fuel : Nat)
    (current : String) (path : List String) :
    cyclesDFS g start i (fuel + 1) current path =
      (successors g current).bind (fun nxt =>
        if nxt = start then [path.reverse]
        else if List.indexOf nxt g.nodes < i ∨ nxt ∈ path then []
        else cyclesDFS g start i fuel nxt (nxt :: path)) := by
  rw [cyclesDFS]
  rw [foldl_append_eq (fun nxt =>
      if nxt = start then [path.reverse]
      else if List.indexOf nxt g.nodes < i ∨ nxt ∈ path then []
      else cyclesDFS g start i fuel nxt (nxt :: path)) _ ?_ (successors g current) []]
  · rw [List.nil_append]
  · intro acc x
    by_cases h1 : x = start
    · simp [h1]
    · by_cases h2 : List.indexOf x g.nodes < i ∨ x ∈ path
      · simp [h1, h2]
      · simp [h1, h2]

theorem cyclesDFS_two_cycle (g : DiGraph) (a b : String) (i fuel : Nat)
    (hb_succ : b ∈ successors g a) (ha_succ : a ∈ successors g b)
    (hne : b ≠ a) (hidx : ¬ List.indexOf b g.nodes < i) :
    [a, b] ∈ cyclesDFS g a i (fuel + 2) a [a] := by
  rw [show fuel + 2 = (fuel + 1) + 1 from rfl, cyclesDFS_eq_bind]
  rw [List.mem_bind]
  refine ⟨b, hb_succ, ?_⟩
  rw [if_neg hne, if_neg (by
    intro hcon
    rcases hcon with h | h
    · exact hidx h
    · rw [List.mem_singleton] at h
      exact hne h)]
  rw [cyclesDFS_eq_bind, List.mem_bind]
  refine ⟨a, ha_succ, ?_⟩
  rw [if_pos rfl]
  exact List.mem_singleton.mpr rfl

theorem nx_simple_cycles_has_two_cycle (g : DiGraph) (a b : String)
    (ha : a ∈ g.nodes) (hb : b ∈ g.nodes)
    (hne : a ≠ b) (hidx : List.indexOf a g.nodes < List.indexOf b g.nodes)
    (hab : edgeRel g a b) (hba : edgeRel g b a) :
    [a, b] ∈ nx_simple_cycles g := by
  unfold nx_simple_cycles
  rw [foldl_append_eq (fun i =>
      match g.nodes.get? i with
      | none => []
      | some s => cyclesDFS g s i (g.nodes.length + 1) s [s]) _ ?_
      (List.range g.nodes.length) []]
  · rw [List.nil_append, List.mem_bind]
    refine ⟨List.indexOf a g.nodes,
      List.mem_range.mpr (List.indexOf_lt_length.mpr ha), ?_⟩
    rw [List.indexOf_get? ha]
    have hlen : g.nodes.length + 1 = (g.nodes.length - 1) + 2 := by
      have := List.indexOf_lt_length.mpr hb
      omega
    rw [hlen]
    refine cyclesDFS_two_cycle g a b (List.indexOf a g.nodes) _
      ((mem_successors_iff g b a).mpr hab)
      ((mem_successors_iff g a b).mpr hba)
      (fun h => hne h.symm) (by omega)
  · intro acc x
    rcases hx : g.nodes[x]? with _ | s <;>
      simp [List.get?_eq_getElem?, hx]

theorem stats_is_dag_false_of_mutual (g : DiGraph) (a b : String)
    (ha : a ∈ g.nodes) (hab : edgeRel g a b) (hba : edgeRel g b a) :
    (get_graph_stats (some g)).isDag = false := by
  rw [show get_graph_stats (some g) = StatsResult.mk g.nodes.length
    g.edges.length (nx_is_dag g) (nx_weak_components g) from rfl]
  show nx_is_dag g = false
  unfold nx_is_dag
  have hmem : a ∈ closureLoop g Dir.fwd [] [a] := by
    rw [mem_closureLoop_iff]
    have h1 : stepRel g Dir.fwd a b := (mem_successors_iff g a b).mpr hba
    have h2 : stepRel g Dir.fwd b a := (mem_successors_iff g b a).mpr hab
    exact Relation.TransGen.head h1 (Relation.TransGen.single h2)
  have hany : (g.nodes.any (fun n => n ∈ closureLoop g Dir.fwd [] [n])) = true := by
    rw [List.any_eq_true]
    exact ⟨a, ha, decide_eq_true hmem⟩
  rw [hany]
  rfl

/-- C7 (amended): if the analyzed graph has mutual edges `a → b` and
`b → a`, the full simple-cycle enumeration contains a cycle holding
both `a` and `b` and `stats` reports `is_dag = false`; the list
returned by `cycles()` never exceeds 10 entries, but because of that
cap it is only guaranteed to contain the `a`–`b` cycle when few enough
cycles precede it — on Scenario A's two-file repository it does. -/
theorem mutual_import_cycle_found (g : DiGraph) (a b : String)
    (ha : a ∈ g.nodes) (hb : b ∈ g.nodes) (hne : a ≠ b)
    (hab : edgeRel g a b) (hba : edgeRel g b a) :
    (∃ c ∈ nx_simple_cycles g, a ∈ c ∧ b ∈ c) ∧
    (get_graph_stats (some g)).isDag = false ∧
    (∀ graph : Option DiGraph,
      (find_circular_dependencies graph).length ≤ 10) ∧
    (∃ c ∈ find_circular_dependencies (some (analyze_repository
        [("a.py", some "import b"), ("b.py", some "import a")]).2),
      "a.py" ∈ c ∧ "b.py" ∈ c) := by
  refine ⟨?_, stats_is_dag_false_of_mutual g a b ha hab hba, ?_, ?_⟩
  · rcases lt_trichotomy (List.indexOf a g.nodes) (List.indexOf b g.nodes)
      with hlt | heq | hgt
    · exact ⟨[a, b], nx_simple_cycles_has_two_cycle g a b ha hb hne hlt hab hba,
        by simp, by simp⟩
    · exfalso
      apply hne
      have h1 := List.indexOf_get? ha
      have h2 := List.indexOf_get? hb
      rw [heq] at h1
      rw [h1] at h2
      injection h2
    · exact ⟨[b, a],
        nx_simple_cycles_has_two_cycle g b a hb ha (fun h => hne h.symm)
          hgt hba hab,
        by simp, by simp⟩
  · intro graph
    cases graph with
    | none => simp [find_circular_dependencies]
    | some g2 =>
      show ((nx_simple_cycles g2).take 10).length ≤ 10
      exact List.length_take_le 10 _
  · decide

/-- Witness for C7 (amended) on the two-file mutually-importing
repository. -/
theorem mutual_import_cycle_found_witness :
    (∃ c ∈ nx_simple_cycles (analyze_repository
        [("a.py", some "import b"), ("b.py", some "import a")]).2,
      "a.py" ∈ c ∧ "b.py" ∈ c) ∧
    (get_graph_stats (some (analyze_repository
        [("a.py", some "import b"), ("b.py", some "import a")]).2)).isDag =
      false ∧
    (∀ graph : Option DiGraph,
      (find_circular_dependencies graph).length ≤ 10) ∧
    (∃ c ∈ find_circular_dependencies (some (analyze_repository
        [("a.py", some "import b"), ("b.py", some "import a")]).2),
      "a.py" ∈ c ∧ "b.py" ∈ c) :=
  mutual_import_cycle_found
    (analyze_repository
      [("a.py", some "import b"), ("b.py", some "import a")]).2
    "a.py" "b.py" (by decide) (by decide) (by decide)
    ⟨"b", by decide⟩ ⟨"a", by decide⟩

/-- C7 counterexample: on `manyCyclesRepo` the analyzed graph holds the
mutual edges `a.py → b.py` and `b.py → a.py`, yet no cycle returned by
`find_circular_dependencies` holds both, because ten cycles rooted at
earlier nodes fill the `[:10]` cap first. -/
theorem mutual_cycle_dropped_by_cap :
    (GEdge.mk "a.py" "b.py" "b" ∈ (analyze_repository manyCyclesRepo).2.edges ∧
     GEdge.mk "b.py" "a.py" "a" ∈ (analyze_repository manyCyclesRepo).2.edges) ∧
    ∀ c ∈ find_circular_dependencies
        (some (analyze_repository manyCyclesRepo).2),
      ¬ ("a.py" ∈ c ∧ "b.py" ∈ c) := by
  set_option maxRecDepth 40000 in decide

end Docuverse
